import Mathlib

/-!
# Verification of the BadgerDB B+Tree index (`src/btree.cpp`)

This file shallowly embeds the B+Tree index implementation of `btree.cpp`
into Lean 4 and proves/refutes the frozen claims about it.

Modelling conventions:

* Machine `int` keys become `Int`; page ids and slot counts become `Nat`.
* Fixed-size node arrays (`keyArray`, `ridArray`, `pageNoArray`) become total
  functions `Nat → _`; slots beyond the node's occupancy are simply never
  read by the embedded code on the inputs the theorems consider.  Freshly
  allocated pages are all-zero, as BadgerDB zero-fills new pages.
* `leafOccupancy` / `nodeOccupancy` are member variables of `BTreeIndex`
  (set in the constructor from `INTARRAYLEAFSIZE` / `INTARRAYNONLEAFSIZE`);
  the embedded operations take them as explicit parameters `L` / `N`.
  The constants themselves are also defined below.
* C++ loop variables of type `int` that count downward (and may reach `-1`)
  are embedded as a `Nat` counter holding `i + 1`, so counter `0` plays the
  role of `i = -1`.
* Exceptions become `Except`-style results; buffer-manager pins become an
  explicit pin-count map in the state-machine part of the development.
-/

namespace BTree

/-- Record identifier: pair of page number and slot number.  `page_number = 0`
is the sentinel marking an empty leaf slot. -/
structure RecordId where
  page_number : Nat
  slot_number : Nat
deriving DecidableEq, Repr

/-- The all-zero record id used in cleared/empty slots. -/
def RecordId.zero : RecordId := ⟨0, 0⟩

/-- `RIDKeyPair<int>` from `btree.h`. -/
structure RIDKeyPair where
  rid : RecordId
  key : Int
deriving DecidableEq, Repr

/-- `PageKeyPair<int>` from `btree.h`. -/
structure PageKeyPair where
  pageNo : Nat
  key : Int
deriving DecidableEq, Repr

/-- Scan comparison operators (`enum Operator`). -/
inductive Operator where
  | LT | LTE | GTE | GT
deriving DecidableEq, Repr

/-- `LeafNodeInt` from `btree.h`: key array, rid array, right-sibling pointer.
Arrays are modelled as total functions; the occupancy bound is supplied to
each operation. -/
structure LeafNodeInt where
  keyArray : Nat → Int
  ridArray : Nat → RecordId
  rightSibPageNo : Nat

/-- `NonLeafNodeInt` from `btree.h`: level marker, key array and child-page
array (one more child slot than key slots). -/
structure NonLeafNodeInt where
  level : Int
  keyArray : Nat → Int
  pageNoArray : Nat → Nat

/-- The all-zero leaf: contents of a freshly allocated page viewed as a leaf. -/
def zeroLeaf : LeafNodeInt := ⟨fun _ => 0, fun _ => RecordId.zero, 0⟩

/-- The all-zero internal node: fresh page viewed as a non-leaf. -/
def zeroNonLeaf : NonLeafNodeInt := ⟨0, fun _ => 0, fun _ => 0⟩

/-- Pointwise array update used to model in-place writes to node arrays. -/
def upd {α : Type} (f : Nat → α) (i : Nat) (v : α) : Nat → α :=
  fun j => if j = i then v else f j

theorem upd_same {α : Type} (f : Nat → α) (i : Nat) (v : α) : upd f i v i = v := by
  simp [upd]

theorem upd_ne {α : Type} (f : Nat → α) (i j : Nat) (v : α) (h : j ≠ i) :
    upd f i v j = f j := by
  simp [upd, h]

/-- Page size of a BadgerDB page (`Page::SIZE`). -/
def PageSize : Nat := 8192

/-- `INTARRAYLEAFSIZE = (Page::SIZE - sizeof(PageId)) / (sizeof(int) + sizeof(RecordId))`,
with `sizeof(PageId) = 4`, `sizeof(int) = 4`, `sizeof(RecordId) = 8`. -/
def INTARRAYLEAFSIZE : Nat := (PageSize - 4) / (4 + 8)

/-- `INTARRAYNONLEAFSIZE = (Page::SIZE - sizeof(int) - sizeof(PageId)) / (sizeof(int) + sizeof(PageId))`. -/
def INTARRAYNONLEAFSIZE : Nat := (PageSize - 4 - 4) / (4 + 4)

theorem INTARRAYLEAFSIZE_eq : INTARRAYLEAFSIZE = 682 := by decide

theorem INTARRAYNONLEAFSIZE_eq : INTARRAYNONLEAFSIZE = 1023 := by decide

/-!
## `BTreeIndex::checkKey` (btree.cpp lines 593-611)
-/

/-- `checkKey`: does `key` satisfy the scan bounds?  Translated case for case
from the source. -/
def checkKey (lowVal : Int) (lowOp : Operator) (highVal : Int) (highOp : Operator)
    (key : Int) : Bool :=
  if lowOp = Operator.GTE ∧ highOp = Operator.LTE then
    decide (key ≤ highVal ∧ key ≥ lowVal)
  else if lowOp = Operator.GT ∧ highOp = Operator.LTE then
    decide (key ≤ highVal ∧ key > lowVal)
  else if lowOp = Operator.GTE ∧ highOp = Operator.LT then
    decide (key < highVal ∧ key ≥ lowVal)
  else
    decide (key < highVal ∧ key > lowVal)

/-!
## `BTreeIndex::findNextNonLeafNode` (btree.cpp lines 164-176)

```
int i = nodeOccupancy;
while(i >= 0 && (curNode->pageNoArray[i] == 0)) i--;
while(i > 0 && (curNode->keyArray[i-1] >= key)) i--;
nextNodeNum = curNode->pageNoArray[i];
```

The two loops are embedded as recursions on a counter holding `i + 1`;
counter value `0` corresponds to `i = -1` (reachable only when every child
slot is zero, in which case the C++ code reads `pageNoArray[-1]`, which is
undefined behaviour; the theorems below therefore assume at least one
present child). -/

/-- First loop of `findNextNonLeafNode`: skip trailing zero child slots.
Argument is `i + 1`; result is the final `i + 1`. -/
def skipZeroChildren (node : NonLeafNodeInt) : Nat → Nat
  | 0 => 0
  | i + 1 => if node.pageNoArray i = 0 then skipZeroChildren node i else i + 1

/-- Second loop of `findNextNonLeafNode`: step left while the separator to the
left is `≥ key`.  Argument and result are the actual index `i` (the loop
guard `i > 0` keeps the index non-negative). -/
def stepLeftWhileGE (node : NonLeafNodeInt) (key : Int) : Nat → Nat
  | 0 => 0
  | i + 1 => if node.keyArray i ≥ key then stepLeftWhileGE node key i else i + 1

/-- `findNextNonLeafNode`: child page chosen to descend into, given the
occupancy `N` (`nodeOccupancy`).  Mirrors the source exactly on every node
with at least one present child slot. -/
def findNextNonLeafNode (N : Nat) (node : NonLeafNodeInt) (key : Int) : Nat :=
  match skipZeroChildren node (N + 1) with
  | 0 => node.pageNoArray 0  -- the source would read pageNoArray[-1] here
  | i + 1 => node.pageNoArray (stepLeftWhileGE node key i)

/-!
## `BTreeIndex::insertLeafNode` (btree.cpp lines 239-256)
-/

/-- Write `entry` into slot `i` of a leaf. -/
def setLeafSlot (l : LeafNodeInt) (i : Nat) (entry : RIDKeyPair) : LeafNodeInt :=
  { l with keyArray := upd l.keyArray i entry.key,
           ridArray := upd l.ridArray i entry.rid }

/-- Tail-finding loop of `insertLeafNode`:
`int i = leafOccupancy - 1; while(i >= 0 && ridArray[i].page_number == 0) i--;`
Argument is `i + 1`; returns the final `i + 1` (`0` means every slot was
empty, the C++ `i = -1`). -/
def leafTailSearch (l : LeafNodeInt) : Nat → Nat
  | 0 => 0
  | i + 1 => if (l.ridArray i).page_number = 0 then leafTailSearch l i else i + 1

/-- Shift-and-place loop of `insertLeafNode`:
`for(; i >= 0 && keyArray[i] > entry.key; i--) { shift slot i to i+1 }` then
place `entry` at slot `i+1`.  Argument is `i + 1`. -/
def leafShiftInsert (entry : RIDKeyPair) : LeafNodeInt → Nat → LeafNodeInt
  | l, 0 => setLeafSlot l 0 entry
  | l, i + 1 =>
    if l.keyArray i > entry.key then
      leafShiftInsert entry
        { l with keyArray := upd l.keyArray (i + 1) (l.keyArray i),
                 ridArray := upd l.ridArray (i + 1) (l.ridArray i) } i
    else
      setLeafSlot l (i + 1) entry

/-- `insertLeafNode`: sorted insertion into a non-full leaf, for leaf
occupancy `L`. -/
def insertLeafNode (L : Nat) (l : LeafNodeInt) (entry : RIDKeyPair) : LeafNodeInt :=
  if (l.ridArray 0).page_number = 0 then
    setLeafSlot l 0 entry
  else
    leafShiftInsert entry l (leafTailSearch l L)

/-!
## `BTreeIndex::insertNonLeafNode` (btree.cpp lines 264-276)
-/

/-- Tail-finding loop of `insertNonLeafNode`:
`int i = nodeOccupancy; while(i >= 0 && pageNoArray[i] == 0) i--;`
Argument is `i + 1`; returns final `i + 1`. -/
def nonLeafTailSearch (n : NonLeafNodeInt) : Nat → Nat
  | 0 => 0
  | i + 1 => if n.pageNoArray i = 0 then nonLeafTailSearch n i else i + 1

/-- Shift-and-place loop of `insertNonLeafNode`:
`for(; i > 0 && keyArray[i-1] > entry->key; i--) { keyArray[i] = keyArray[i-1];
pageNoArray[i+1] = pageNoArray[i]; }` then `keyArray[i] = entry->key;
pageNoArray[i+1] = entry->pageNo`.  Argument is the actual index `i`. -/
def nonLeafShiftInsert (entry : PageKeyPair) : NonLeafNodeInt → Nat → NonLeafNodeInt
  | n, 0 =>
    { n with keyArray := upd n.keyArray 0 entry.key,
             pageNoArray := upd n.pageNoArray 1 entry.pageNo }
  | n, i + 1 =>
    if n.keyArray i > entry.key then
      nonLeafShiftInsert entry
        { n with keyArray := upd n.keyArray (i + 1) (n.keyArray i),
                 pageNoArray := upd n.pageNoArray (i + 2) (n.pageNoArray (i + 1)) } i
    else
      { n with keyArray := upd n.keyArray (i + 1) entry.key,
               pageNoArray := upd n.pageNoArray (i + 2) entry.pageNo }

/-- `insertNonLeafNode`: sorted insertion of a (child page, key) pair into a
non-full internal node of occupancy `N`.  When every child slot is zero the
C++ code would write at `keyArray[-1]`; the embedding then writes at slot `0`
(the theorems only consider nodes with a present child). -/
def insertNonLeafNode (N : Nat) (n : NonLeafNodeInt) (entry : PageKeyPair) :
    NonLeafNodeInt :=
  match nonLeafTailSearch n (N + 1) with
  | 0 => nonLeafShiftInsert entry n 0
  | i + 1 => nonLeafShiftInsert entry n i

/-!
## `BTreeIndex::splitLeafNode` (btree.cpp lines 343-396), node-level part

The buffer-manager interaction (allocation, pinning, root replacement) is
handled in the state-machine part below; here is the pure node computation:
given the full leaf, the page id the caller allocated for the new leaf and
the incoming entry, produce the updated old leaf, the new leaf and the
promoted `PageKeyPair`.
-/

/-- Move loop of `splitLeafNode`:
`for(i = mid; i < leafOccupancy; i++) { copy slot i to newLeaf[i-mid];
clear keyArray[i]; clear ridArray[i].page_number; }`
(`slot_number` of cleared rids is kept, exactly as in the source). -/
def leafMoveLoop (mid L : Nat) : LeafNodeInt → LeafNodeInt → Nat → LeafNodeInt × LeafNodeInt
  | old, new, 0 => (old, new)
  | old, new, k + 1 =>
    let i := L - (k + 1)
    leafMoveLoop mid L
      { old with keyArray := upd old.keyArray i 0,
                 ridArray := upd old.ridArray i ⟨0, (old.ridArray i).slot_number⟩ }
      { new with keyArray := upd new.keyArray (i - mid) (old.keyArray i),
                 ridArray := upd new.ridArray (i - mid) (old.ridArray i) }
      k

/-- `splitLeafNode` (pure part): returns `(old leaf after, new leaf, promoted)`. -/
def splitLeafNode (L : Nat) (leaf : LeafNodeInt) (newPageNumber : Nat)
    (dataEntry : RIDKeyPair) : LeafNodeInt × LeafNodeInt × PageKeyPair :=
  let mid0 := L / 2
  let mid := if L % 2 = 1 ∧ dataEntry.key > leaf.keyArray mid0 then mid0 + 1 else mid0
  let moved := leafMoveLoop mid L leaf zeroLeaf (L - mid)
  let old1 := moved.1
  let new1 := moved.2
  let oldNew :=
    if dataEntry.key > old1.keyArray (mid - 1) then
      (old1, insertLeafNode L new1 dataEntry)
    else
      (insertLeafNode L old1 dataEntry, new1)
  let new3 := { oldNew.2 with rightSibPageNo := oldNew.1.rightSibPageNo }
  let old3 := { oldNew.1 with rightSibPageNo := newPageNumber }
  (old3, new3, ⟨newPageNumber, new3.keyArray 0⟩)

/-!
## `BTreeIndex::splitNonLeafNode` (btree.cpp lines 284-334), node-level part

```
int mid = nodeOccupancy/2;
int moveUpIndex = mid;
if (nodeOccupancy % 2 == 0)
  moveUpIndex = newEntry->key < oldNode->keyArray[mid] ? mid - 1 : mid;
moveUpEntry.set(newPageNumber, oldNode->keyArray[moveUpIndex]);
mid = moveUpIndex + 1;
for(int i = mid; i < nodeOccupancy; i++) {
  newNode->keyArray[i-mid] = oldNode->keyArray[i];
  newNode->pageNoArray[i-mid] = oldNode->pageNoArray[i+1];
  oldNode->pageNoArray[i+1] = 0;
  oldNode->keyArray[i+1] = 0;       // note: i+1, and at i = N-1 this writes
}                                    // keyArray[N], one past the key array
newNode->level = oldNode->level;
oldNode->keyArray[moveUpIndex] = 0;
oldNode->pageNoArray[moveUpIndex] = 0;   // clears the promoted key's LEFT child
if (newEntry->key < newNode->keyArray[0]) insertNonLeafNode(oldNode, newEntry);
else insertNonLeafNode(newNode, newEntry);
```

In the embedding the arrays are separate functions, so the out-of-bounds
write `keyArray[N] = 0` lands at index `N` of the key function and is
harmless (in the C++ struct layout it would overlap `pageNoArray[0]`; memory
layout is outside the scope of this model and none of the claims depends on
that byte overlap).
-/

/-- Move loop of `splitNonLeafNode` (counter counts remaining iterations,
`i = N - k - 1` at counter value `k + 1`... we iterate `i` from `mid` up to
`N - 1`, embedded with a remaining-iterations counter). -/
def nonLeafMoveLoop (mid N : Nat) : NonLeafNodeInt → NonLeafNodeInt → Nat →
    NonLeafNodeInt × NonLeafNodeInt
  | old, new, 0 => (old, new)
  | old, new, k + 1 =>
    let i := N - (k + 1)
    nonLeafMoveLoop mid N
      { old with pageNoArray := upd old.pageNoArray (i + 1) 0,
                 keyArray := upd old.keyArray (i + 1) 0 }
      { new with keyArray := upd new.keyArray (i - mid) (old.keyArray i),
                 pageNoArray := upd new.pageNoArray (i - mid) (old.pageNoArray (i + 1)) }
      k

/-- `splitNonLeafNode` (pure part): returns
`(old node after, new node, promoted entry)`. -/
def splitNonLeafNode (N : Nat) (oldNode : NonLeafNodeInt) (newPageNumber : Nat)
    (newEntry : PageKeyPair) : NonLeafNodeInt × NonLeafNodeInt × PageKeyPair :=
  let mid0 := N / 2
  let moveUpIndex :=
    if N % 2 = 0 then (if newEntry.key < oldNode.keyArray mid0 then mid0 - 1 else mid0)
    else mid0
  let moveUpEntry : PageKeyPair := ⟨newPageNumber, oldNode.keyArray moveUpIndex⟩
  let mid := moveUpIndex + 1
  let moved := nonLeafMoveLoop mid N oldNode zeroNonLeaf (N - mid)
  let old1 := { moved.1 with
                  keyArray := upd moved.1.keyArray moveUpIndex 0,
                  pageNoArray := upd moved.1.pageNoArray moveUpIndex 0 }
  let new1 := { moved.2 with level := oldNode.level }
  let oldNew :=
    if newEntry.key < new1.keyArray 0 then
      (insertNonLeafNode N old1 newEntry, new1)
    else
      (old1, insertNonLeafNode N new1 newEntry)
  (oldNew.1, oldNew.2, moveUpEntry)


/-!
## Claim C8: the tree navigator
-/

theorem skipZeroChildren_eq (node : NonLeafNodeInt) (j0 : Nat)
    (hpres : node.pageNoArray j0 ≠ 0) :
    ∀ c, j0 < c → (∀ k, j0 < k → k < c → node.pageNoArray k = 0) →
      skipZeroChildren node c = j0 + 1 := by
  intro c
  induction c with
  | zero => intro h; omega
  | succ c ih =>
    intro hlt habs
    by_cases hc : j0 = c
    · subst hc
      simp [skipZeroChildren, hpres]
    · have h1 : j0 < c := by omega
      have h2 : node.pageNoArray c = 0 := habs c h1 (by omega)
      simp only [skipZeroChildren, h2, if_pos rfl]
      exact ih h1 (fun k hk hk' => habs k hk (by omega))

theorem stepLeftWhileGE_spec (node : NonLeafNodeInt) (key : Int) :
    ∀ j, ∃ r, stepLeftWhileGE node key j = r ∧ r ≤ j ∧
      (r = 0 ∨ node.keyArray (r - 1) < key) ∧
      (∀ m, r < m → m ≤ j → node.keyArray (m - 1) ≥ key) := by
  intro j
  induction j with
  | zero => exact ⟨0, rfl, le_refl 0, Or.inl rfl, by intro m h1 h2; omega⟩
  | succ j ih =>
    by_cases h : node.keyArray j ≥ key
    · obtain ⟨r, hr, hle, hstop, habove⟩ := ih
      refine ⟨r, ?_, by omega, hstop, ?_⟩
      · simp [stepLeftWhileGE, h, hr]
      · intro m h1 h2
        by_cases hm : m = j + 1
        · subst hm; simpa using h
        · exact habove m h1 (by omega)
    · refine ⟨j + 1, ?_, le_refl _, Or.inr (by simpa using not_le.mp h), ?_⟩
      · simp [stepLeftWhileGE, h]
      · intro m h1 h2; omega

/-- C8 (amended): `find_next_non_leaf_child` returns `page_no_array[j]` where
`j` starts at the largest index with a non-zero child pointer and is
decremented while `j > 0` and `key_array[j-1] ≥ key`; consequently a search
key equal to a present separator descends into that separator's LEFT child
`page_no_array[m]` (not the right child claimed by the spec). -/
theorem c8_navigator (N : Nat) (node : NonLeafNodeInt) (key : Int) (j0 : Nat)
    (hj0 : j0 ≤ N) (hpres : node.pageNoArray j0 ≠ 0)
    (hmax : ∀ k, j0 < k → k ≤ N → node.pageNoArray k = 0)
    (hsorted : ∀ a b, a < b → b < j0 → node.keyArray a < node.keyArray b) :
    (∃ j, j ≤ j0 ∧ (j = 0 ∨ node.keyArray (j - 1) < key) ∧
      (∀ m, j < m → m ≤ j0 → node.keyArray (m - 1) ≥ key) ∧
      findNextNonLeafNode N node key = node.pageNoArray j) ∧
    (∀ m, m < j0 → node.keyArray m = key →
      findNextNonLeafNode N node key = node.pageNoArray m) := by
  have hskip : skipZeroChildren node (N + 1) = j0 + 1 :=
    skipZeroChildren_eq node j0 hpres (N + 1) (by omega)
      (fun k hk hk' => hmax k hk (by omega))
  obtain ⟨r, hr, hle, hstop, habove⟩ := stepLeftWhileGE_spec node key j0
  have hres : findNextNonLeafNode N node key = node.pageNoArray r := by
    simp only [findNextNonLeafNode, hskip, hr]
  constructor
  · exact ⟨r, hle, hstop, habove, hres⟩
  · intro m hm hkey
    have hrm : r = m := by
      rcases Nat.lt_trichotomy r m with h | h | h
      · -- r < m: the loop would have passed key_array[m-1] ≥ key, but
        -- strict sortedness gives key_array[m-1] < key_array[m] = key
        exfalso
        have h1 : node.keyArray (m - 1) ≥ key := habove m h (by omega)
        rcases Nat.eq_zero_or_pos m with hm0 | hm0
        · omega
        · have h2 : node.keyArray (m - 1) < node.keyArray m :=
            hsorted (m - 1) m (by omega) hm
          rw [hkey] at h2; omega
      · exact h
      · -- r > m: the stop condition key_array[r-1] < key fails since
        -- key_array[r-1] ≥ key_array[m] = key
        exfalso
        rcases hstop with h0 | hlt
        · omega
        · rcases Nat.lt_or_ge (r - 1) j0 with hrj | hrj
          · have : node.keyArray m ≤ node.keyArray (r - 1) := by
              rcases Nat.lt_or_ge m (r - 1) with hmr | hmr
              · exact le_of_lt (hsorted m (r - 1) hmr hrj)
              · have : m = r - 1 := by omega
                rw [this]
            rw [hkey] at this; omega
          · omega
    rw [hrm] at hres
    exact hres

/-- Witness for `c8_navigator`: concrete instantiation at a node with
separators 10, 20, 30 and children 1, 2, 3, 4 with search key 25. -/
theorem c8_navigator_witness :
    (∃ j, j ≤ 3 ∧
      (j = 0 ∨ (⟨1, fun i => if i = 0 then 10 else if i = 1 then 20 else if i = 2 then 30 else 0,
        fun i => if i ≤ 3 then i + 1 else 0⟩ : NonLeafNodeInt).keyArray (j - 1) < 25) ∧
      (∀ m, j < m → m ≤ 3 → (⟨1, fun i => if i = 0 then 10 else if i = 1 then 20 else if i = 2 then 30 else 0,
        fun i => if i ≤ 3 then i + 1 else 0⟩ : NonLeafNodeInt).keyArray (m - 1) ≥ 25) ∧
      findNextNonLeafNode 4 (⟨1, fun i => if i = 0 then 10 else if i = 1 then 20 else if i = 2 then 30 else 0,
        fun i => if i ≤ 3 then i + 1 else 0⟩ : NonLeafNodeInt) 25 =
      (⟨1, fun i => if i = 0 then 10 else if i = 1 then 20 else if i = 2 then 30 else 0,
        fun i => if i ≤ 3 then i + 1 else 0⟩ : NonLeafNodeInt).pageNoArray j) ∧
    (∀ m, m < 3 → (⟨1, fun i => if i = 0 then 10 else if i = 1 then 20 else if i = 2 then 30 else 0,
        fun i => if i ≤ 3 then i + 1 else 0⟩ : NonLeafNodeInt).keyArray m = 25 →
      findNextNonLeafNode 4 (⟨1, fun i => if i = 0 then 10 else if i = 1 then 20 else if i = 2 then 30 else 0,
        fun i => if i ≤ 3 then i + 1 else 0⟩ : NonLeafNodeInt) 25 =
      (⟨1, fun i => if i = 0 then 10 else if i = 1 then 20 else if i = 2 then 30 else 0,
        fun i => if i ≤ 3 then i + 1 else 0⟩ : NonLeafNodeInt).pageNoArray m) :=
  c8_navigator 4 _ 25 3 (by decide) (by decide)
    (by intro k h1 h2; interval_cases k; decide)
    (by intro a b h1 h2; interval_cases b <;> interval_cases a <;> decide)

/-- C8 counterexample: search key 20 equals the present separator at index 1
(whose right child is `page_no_array[2] = 3`), yet the navigator returns the
LEFT child `page_no_array[1] = 2`, refuting the claim's tie-break clause. -/
theorem c8_equal_key_right_child_cex :
    (⟨1, fun i => if i = 0 then 10 else if i = 1 then 20 else if i = 2 then 30 else 0,
      fun i => if i ≤ 3 then i + 1 else 0⟩ : NonLeafNodeInt).keyArray 1 = 20 ∧
    (⟨1, fun i => if i = 0 then 10 else if i = 1 then 20 else if i = 2 then 30 else 0,
      fun i => if i ≤ 3 then i + 1 else 0⟩ : NonLeafNodeInt).pageNoArray 2 ≠ 0 ∧
    findNextNonLeafNode 4 (⟨1, fun i => if i = 0 then 10 else if i = 1 then 20 else if i = 2 then 30 else 0,
      fun i => if i ≤ 3 then i + 1 else 0⟩ : NonLeafNodeInt) 20 ≠
      (⟨1, fun i => if i = 0 then 10 else if i = 1 then 20 else if i = 2 then 30 else 0,
        fun i => if i ≤ 3 then i + 1 else 0⟩ : NonLeafNodeInt).pageNoArray 2 ∧
    findNextNonLeafNode 4 (⟨1, fun i => if i = 0 then 10 else if i = 1 then 20 else if i = 2 then 30 else 0,
      fun i => if i ≤ 3 then i + 1 else 0⟩ : NonLeafNodeInt) 20 =
      (⟨1, fun i => if i = 0 then 10 else if i = 1 then 20 else if i = 2 then 30 else 0,
        fun i => if i ≤ 3 then i + 1 else 0⟩ : NonLeafNodeInt).pageNoArray 1 := by
  refine ⟨rfl, by decide, by decide, by decide⟩

/-!
## Claim C9: `insertLeafNode` places entries in sorted position
-/

/-- Characterization of the shift-and-place loop of `insertLeafNode`: starting
from counter `c` (C++ index `c - 1`), the loop stops at some slot `q ≤ c` whose
left neighbour's key is `≤ entry.key` (or `q = 0`), shifts slots `q..c-1` one
to the right, and places `entry` at slot `q`.  No sortedness is assumed. -/
theorem leafShiftInsert_spec (entry : RIDKeyPair) :
    ∀ (c : Nat) (l : LeafNodeInt), ∃ q, q ≤ c ∧
      (q = 0 ∨ l.keyArray (q - 1) ≤ entry.key) ∧
      (∀ m, q ≤ m → m < c → entry.key < l.keyArray m) ∧
      (leafShiftInsert entry l c).keyArray q = entry.key ∧
      (leafShiftInsert entry l c).ridArray q = entry.rid ∧
      (∀ j, j < q → (leafShiftInsert entry l c).keyArray j = l.keyArray j ∧
                    (leafShiftInsert entry l c).ridArray j = l.ridArray j) ∧
      (∀ j, q ≤ j → j < c → (leafShiftInsert entry l c).keyArray (j + 1) = l.keyArray j ∧
                    (leafShiftInsert entry l c).ridArray (j + 1) = l.ridArray j) ∧
      (∀ j, c < j → (leafShiftInsert entry l c).keyArray j = l.keyArray j ∧
                    (leafShiftInsert entry l c).ridArray j = l.ridArray j) ∧
      (leafShiftInsert entry l c).rightSibPageNo = l.rightSibPageNo := by
  intro c
  induction c with
  | zero =>
    intro l
    refine ⟨0, le_refl _, Or.inl rfl, by omega, ?_, ?_, by omega, by omega, ?_, rfl⟩
    · simp [leafShiftInsert, setLeafSlot, upd_same]
    · simp [leafShiftInsert, setLeafSlot, upd_same]
    · intro j hj
      constructor
      · simp [leafShiftInsert, setLeafSlot]; exact upd_ne _ _ _ _ (by omega)
      · simp [leafShiftInsert, setLeafSlot]; exact upd_ne _ _ _ _ (by omega)
  | succ c ih =>
    intro l
    by_cases h : l.keyArray c > entry.key
    · -- shift slot c to c+1 and continue at c
      have hstep : leafShiftInsert entry l (c + 1) =
          leafShiftInsert entry
            { l with keyArray := upd l.keyArray (c + 1) (l.keyArray c),
                     ridArray := upd l.ridArray (c + 1) (l.ridArray c) } c := by
        simp [leafShiftInsert, h]
      set l' : LeafNodeInt :=
        { l with keyArray := upd l.keyArray (c + 1) (l.keyArray c),
                 ridArray := upd l.ridArray (c + 1) (l.ridArray c) } with hl'
      obtain ⟨q, hqc, hstop, habove, hkq, hrq, hlow, hshift, hhigh, hsib⟩ := ih l'
      have hl'key : ∀ j, j ≠ c + 1 → l'.keyArray j = l.keyArray j := by
        intro j hj; simp [hl']; exact upd_ne _ _ _ _ hj
      have hl'rid : ∀ j, j ≠ c + 1 → l'.ridArray j = l.ridArray j := by
        intro j hj; simp [hl']; exact upd_ne _ _ _ _ hj
      refine ⟨q, by omega, ?_, ?_, by rw [hstep]; exact hkq, by rw [hstep]; exact hrq,
        ?_, ?_, ?_, ?_⟩
      · rcases hstop with h0 | hle
        · exact Or.inl h0
        · exact Or.inr (by rw [← hl'key (q - 1) (by omega)]; exact hle)
      · intro m hm1 hm2
        by_cases hmc : m = c
        · subst hmc; exact h
        · rw [← hl'key m (by omega)]; exact habove m hm1 (by omega)
      · intro j hj
        rw [hstep]
        obtain ⟨h1, h2⟩ := hlow j hj
        exact ⟨by rw [h1]; exact hl'key j (by omega),
              by rw [h2]; exact hl'rid j (by omega)⟩
      · intro j hj1 hj2
        rw [hstep]
        by_cases hjc : j = c
        · obtain ⟨h1, h2⟩ := hhigh (c + 1) (by omega)
          rw [hjc]
          refine ⟨by rw [h1]; simp [hl', upd_same], by rw [h2]; simp [hl', upd_same]⟩
        · obtain ⟨h1, h2⟩ := hshift j hj1 (by omega)
          exact ⟨by rw [h1]; exact hl'key j (by omega),
                by rw [h2]; exact hl'rid j (by omega)⟩
      · intro j hj
        rw [hstep]
        obtain ⟨h1, h2⟩ := hhigh j (by omega)
        exact ⟨by rw [h1]; exact hl'key j (by omega),
              by rw [h2]; exact hl'rid j (by omega)⟩
      · rw [hstep]; rw [hsib]
    · -- place entry at slot c + 1
      have hstep : leafShiftInsert entry l (c + 1) = setLeafSlot l (c + 1) entry := by
        simp [leafShiftInsert, h]
      refine ⟨c + 1, le_refl _, Or.inr (by simpa using not_lt.mp h), by omega, ?_, ?_,
        ?_, by omega, ?_, by rw [hstep]; rfl⟩
      · rw [hstep]; simp [setLeafSlot, upd_same]
      · rw [hstep]; simp [setLeafSlot, upd_same]
      · intro j hj
        rw [hstep]
        exact ⟨by simp [setLeafSlot]; exact upd_ne _ _ _ _ (by omega),
              by simp [setLeafSlot]; exact upd_ne _ _ _ _ (by omega)⟩
      · intro j hj
        rw [hstep]
        exact ⟨by simp [setLeafSlot]; exact upd_ne _ _ _ _ (by omega),
              by simp [setLeafSlot]; exact upd_ne _ _ _ _ (by omega)⟩

/-- The tail-search loop of `insertLeafNode` finds `n` (the number of present
entries) when slots `[0, n)` are present and slots `[n, c)` are absent. -/
theorem leafTailSearch_eq (l : LeafNodeInt) (n : Nat) (hn : 1 ≤ n)
    (hpres : (l.ridArray (n - 1)).page_number ≠ 0) :
    ∀ c, n ≤ c → (∀ i, n ≤ i → i < c → (l.ridArray i).page_number = 0) →
      leafTailSearch l c = n := by
  intro c
  induction c with
  | zero => intro h; omega
  | succ c ih =>
    intro hc habs
    by_cases hcn : n = c + 1
    · subst hcn
      have : ¬ (l.ridArray c).page_number = 0 := by
        simpa using hpres
      simp [leafTailSearch, this]
    · have h1 : (l.ridArray c).page_number = 0 := habs c (by omega) (by omega)
      simp only [leafTailSearch, h1, if_pos rfl]
      exact ih (by omega) (fun i hi hi' => habs i hi (by omega))

/-- Transitivity of adjacent-sortedness over a prefix. -/
theorem sortedLe_of_adj (f : Nat → Int) (n : Nat)
    (h : ∀ i, i + 1 < n → f i ≤ f (i + 1)) :
    ∀ i j, i ≤ j → j < n → f i ≤ f j := by
  intro i j hij hj
  induction j with
  | zero => have h0 : i = 0 := by omega
            rw [h0]
  | succ j ih =>
    by_cases hi : i = j + 1
    · rw [hi]
    · exact le_trans (ih (by omega) (by omega)) (h j hj)

/-- General characterization of `insertLeafNode` on a well-formed non-full
leaf (shared by several claims). -/
theorem insertLeafNode_spec (L n : Nat) (l : LeafNodeInt) (entry : RIDKeyPair)
    (hnL : n < L)
    (hpres : ∀ i, i < n → (l.ridArray i).page_number ≠ 0)
    (habs : ∀ i, n ≤ i → i < L → (l.ridArray i).page_number = 0)
    (hsorted : ∀ i, i + 1 < n → l.keyArray i ≤ l.keyArray (i + 1))
    (hrid : entry.rid.page_number ≠ 0) :
    ∃ p, p ≤ n ∧
      (∀ i, i < p → l.keyArray i ≤ entry.key) ∧
      (∀ m, p ≤ m → m < n → entry.key < l.keyArray m) ∧
      (insertLeafNode L l entry).keyArray p = entry.key ∧
      (insertLeafNode L l entry).ridArray p = entry.rid ∧
      (∀ j, j < p → (insertLeafNode L l entry).keyArray j = l.keyArray j ∧
                    (insertLeafNode L l entry).ridArray j = l.ridArray j) ∧
      (∀ j, p ≤ j → j < n → (insertLeafNode L l entry).keyArray (j + 1) = l.keyArray j ∧
                    (insertLeafNode L l entry).ridArray (j + 1) = l.ridArray j) ∧
      (∀ i, i < n + 1 → ((insertLeafNode L l entry).ridArray i).page_number ≠ 0) ∧
      (∀ i, n < i → i < L → ((insertLeafNode L l entry).ridArray i).page_number = 0) ∧
      (∀ i, i + 1 < n + 1 →
        (insertLeafNode L l entry).keyArray i ≤ (insertLeafNode L l entry).keyArray (i + 1)) := by
  rcases Nat.eq_zero_or_pos n with hn0 | hn1
  · -- empty leaf: the entry goes to slot 0
    subst hn0
    have h0 : (l.ridArray 0).page_number = 0 := habs 0 (by omega) (by omega)
    have hres : insertLeafNode L l entry = setLeafSlot l 0 entry := by
      simp [insertLeafNode, h0]
    refine ⟨0, le_refl _, by omega, by omega, ?_, ?_, by omega, by omega, ?_, ?_, by omega⟩
    · rw [hres]; simp [setLeafSlot, upd_same]
    · rw [hres]; simp [setLeafSlot, upd_same]
    · intro i hi
      have h1 : i = 0 := by omega
      rw [h1, hres]; simpa [setLeafSlot, upd_same] using hrid
    · intro i hi1 hi2
      rw [hres]
      simp only [setLeafSlot]
      rw [upd_ne _ _ _ _ (by omega)]
      exact habs i (by omega) hi2
  · -- non-empty leaf: tail search finds n, then the shift loop runs
    have h0 : ¬ (l.ridArray 0).page_number = 0 := hpres 0 (by omega)
    have htail : leafTailSearch l L = n :=
      leafTailSearch_eq l n hn1 (hpres (n - 1) (by omega)) L (by omega)
        (fun i hi hi' => habs i hi hi')
    have hres : insertLeafNode L l entry = leafShiftInsert entry l n := by
      simp [insertLeafNode, h0, htail]
    obtain ⟨q, hqc, hstop, habove, hkq, hrq, hlow, hshift, hhigh, _⟩ :=
      leafShiftInsert_spec entry n l
    have hleft : ∀ i, i < q → l.keyArray i ≤ entry.key := by
      intro i hi
      rcases hstop with h0' | hle
      · omega
      · exact le_trans (sortedLe_of_adj l.keyArray n hsorted i (q - 1) (by omega) (by omega)) hle
    refine ⟨q, hqc, hleft, habove, by rw [hres]; exact hkq, by rw [hres]; exact hrq,
      by rw [hres]; exact hlow, by rw [hres]; exact hshift, ?_, ?_, ?_⟩
    · -- presence of the new prefix [0, n+1)
      intro i hi
      rw [hres]
      rcases Nat.lt_trichotomy i q with h | h | h
      · rw [(hlow i h).2]; exact hpres i (by omega)
      · rw [h, hrq]; exact hrid
      · have h1 : (leafShiftInsert entry l n).ridArray ((i - 1) + 1) = l.ridArray (i - 1) :=
          (hshift (i - 1) (by omega) (by omega)).2
        have h2 : (i - 1) + 1 = i := by omega
        rw [h2] at h1
        rw [h1]; exact hpres (i - 1) (by omega)
    · -- slots beyond n + 1 stay absent
      intro i hi1 hi2
      rw [hres]
      rw [(hhigh i (by omega)).2]
      exact habs i (by omega) hi2
    · -- the new prefix of length n + 1 is sorted
      intro i hi
      rw [hres]
      rcases Nat.lt_trichotomy (i + 1) q with h | h | h
      · rw [(hlow i (by omega)).1, (hlow (i + 1) h).1]
        exact hsorted i (by omega)
      · rw [← h] at hkq
        rw [hkq, (hlow i (by omega)).1]
        exact hleft i (by omega)
      · rcases Nat.lt_trichotomy i q with h' | h' | h'
        · omega
        · have h1 : (leafShiftInsert entry l n).keyArray (q + 1) = l.keyArray q :=
            (hshift q (le_refl _) (by omega)).1
          rw [h', hkq, h1]
          exact le_of_lt (habove q (le_refl _) (by omega))
        · have h1 : (leafShiftInsert entry l n).keyArray ((i - 1) + 1) = l.keyArray (i - 1) :=
            (hshift (i - 1) (by omega) (by omega)).1
          have h2 : (leafShiftInsert entry l n).keyArray (i + 1) = l.keyArray i :=
            (hshift i (by omega) (by omega)).1
          have h3 : (i - 1) + 1 = i := by omega
          rw [h3] at h1
          rw [h1, h2]
          have h4 := hsorted (i - 1) (by omega)
          rwa [h3] at h4

/-- C9: `insert_leaf` on a non-full well-formed leaf places the entry at the
position `p` that keeps the present keys sorted ascending: all present keys
`≤ entry.key` stay to its left (so an entry with an equal key lands to the
right of every existing equal entry), all strictly greater keys shift one
slot right, an empty leaf receives the entry at slot 0 (the case `n = 0`),
and the resulting present prefix of length `n + 1` is sorted. -/
theorem c9_insert_leaf (L n : Nat) (l : LeafNodeInt) (entry : RIDKeyPair)
    (hnL : n < L)
    (hpres : ∀ i, i < n → (l.ridArray i).page_number ≠ 0)
    (habs : ∀ i, n ≤ i → i < L → (l.ridArray i).page_number = 0)
    (hsorted : ∀ i, i + 1 < n → l.keyArray i ≤ l.keyArray (i + 1))
    (hrid : entry.rid.page_number ≠ 0) :
    ∃ p, p ≤ n ∧
      (∀ i, i < p → l.keyArray i ≤ entry.key) ∧
      (∀ m, p ≤ m → m < n → entry.key < l.keyArray m) ∧
      (insertLeafNode L l entry).keyArray p = entry.key ∧
      (insertLeafNode L l entry).ridArray p = entry.rid ∧
      (∀ j, j < p → (insertLeafNode L l entry).keyArray j = l.keyArray j ∧
                    (insertLeafNode L l entry).ridArray j = l.ridArray j) ∧
      (∀ j, p ≤ j → j < n → (insertLeafNode L l entry).keyArray (j + 1) = l.keyArray j ∧
                    (insertLeafNode L l entry).ridArray (j + 1) = l.ridArray j) ∧
      (∀ i, i < n + 1 → ((insertLeafNode L l entry).ridArray i).page_number ≠ 0) ∧
      (∀ i, n < i → i < L → ((insertLeafNode L l entry).ridArray i).page_number = 0) ∧
      (∀ i, i + 1 < n + 1 →
        (insertLeafNode L l entry).keyArray i ≤ (insertLeafNode L l entry).keyArray (i + 1)) :=
  insertLeafNode_spec L n l entry hnL hpres habs hsorted hrid

/-- Concrete leaf used by the `c9_insert_leaf` witness: keys 10, 20, 20 in
slots 0-2 (present), remaining slots empty. -/
def c9Leaf : LeafNodeInt :=
  ⟨fun i => if i = 0 then 10 else if i ≤ 2 then 20 else 0,
   fun i => if i ≤ 2 then ⟨6, i⟩ else RecordId.zero, 0⟩

/-- Witness for `c9_insert_leaf`: inserting a new entry with key 20 into a
leaf with keys 10, 20, 20. -/
theorem c9_insert_leaf_witness :
    ∃ p, p ≤ 3 ∧
      (∀ i, i < p → c9Leaf.keyArray i ≤ (20 : Int)) ∧
      (∀ m, p ≤ m → m < 3 → (20 : Int) < c9Leaf.keyArray m) ∧
      (insertLeafNode 5 c9Leaf ⟨⟨7, 4⟩, 20⟩).keyArray p = 20 ∧
      (insertLeafNode 5 c9Leaf ⟨⟨7, 4⟩, 20⟩).ridArray p = ⟨7, 4⟩ ∧
      (∀ j, j < p → (insertLeafNode 5 c9Leaf ⟨⟨7, 4⟩, 20⟩).keyArray j = c9Leaf.keyArray j ∧
                    (insertLeafNode 5 c9Leaf ⟨⟨7, 4⟩, 20⟩).ridArray j = c9Leaf.ridArray j) ∧
      (∀ j, p ≤ j → j < 3 → (insertLeafNode 5 c9Leaf ⟨⟨7, 4⟩, 20⟩).keyArray (j + 1) = c9Leaf.keyArray j ∧
                    (insertLeafNode 5 c9Leaf ⟨⟨7, 4⟩, 20⟩).ridArray (j + 1) = c9Leaf.ridArray j) ∧
      (∀ i, i < 3 + 1 → ((insertLeafNode 5 c9Leaf ⟨⟨7, 4⟩, 20⟩).ridArray i).page_number ≠ 0) ∧
      (∀ i, 3 < i → i < 5 → ((insertLeafNode 5 c9Leaf ⟨⟨7, 4⟩, 20⟩).ridArray i).page_number = 0) ∧
      (∀ i, i + 1 < 3 + 1 →
        (insertLeafNode 5 c9Leaf ⟨⟨7, 4⟩, 20⟩).keyArray i ≤
        (insertLeafNode 5 c9Leaf ⟨⟨7, 4⟩, 20⟩).keyArray (i + 1)) :=
  c9_insert_leaf 5 3 c9Leaf ⟨⟨7, 4⟩, 20⟩ (by decide)
    (by intro i hi; interval_cases i <;> decide)
    (by intro i hi1 hi2; interval_cases i <;> decide)
    (by intro i hi; have hub : i < 2 := by omega
        interval_cases i <;> decide)
    (by decide)

/-!
## Claim C6: `splitLeafNode`
-/

/-- Characterization of the move loop of `splitLeafNode`, with `k` remaining
iterations (the loop body runs for source indices `L - k, ..., L - 1`). -/
theorem leafMoveLoop_spec (mid L : Nat) :
    ∀ (k : Nat) (old new : LeafNodeInt), k ≤ L - mid → mid ≤ L →
      ((∀ j, j < L - k → (leafMoveLoop mid L old new k).1.keyArray j = old.keyArray j ∧
          (leafMoveLoop mid L old new k).1.ridArray j = old.ridArray j) ∧
       (∀ j, L - k ≤ j → j < L → (leafMoveLoop mid L old new k).1.keyArray j = 0 ∧
          (leafMoveLoop mid L old new k).1.ridArray j = ⟨0, (old.ridArray j).slot_number⟩) ∧
       (∀ j, L ≤ j → (leafMoveLoop mid L old new k).1.keyArray j = old.keyArray j ∧
          (leafMoveLoop mid L old new k).1.ridArray j = old.ridArray j) ∧
       (leafMoveLoop mid L old new k).1.rightSibPageNo = old.rightSibPageNo) ∧
      ((∀ j, j + mid < L - k → (leafMoveLoop mid L old new k).2.keyArray j = new.keyArray j ∧
          (leafMoveLoop mid L old new k).2.ridArray j = new.ridArray j) ∧
       (∀ j, L - k ≤ j + mid → j + mid < L →
          (leafMoveLoop mid L old new k).2.keyArray j = old.keyArray (j + mid) ∧
          (leafMoveLoop mid L old new k).2.ridArray j = old.ridArray (j + mid)) ∧
       (∀ j, L ≤ j + mid → (leafMoveLoop mid L old new k).2.keyArray j = new.keyArray j ∧
          (leafMoveLoop mid L old new k).2.ridArray j = new.ridArray j) ∧
       (leafMoveLoop mid L old new k).2.rightSibPageNo = new.rightSibPageNo) := by
  intro k
  induction k with
  | zero =>
    intro old new hk hmL
    exact ⟨⟨fun j hj => ⟨rfl, rfl⟩, fun j hj1 hj2 => (by omega : False).elim,
            fun j hj => ⟨rfl, rfl⟩, rfl⟩,
           ⟨fun j hj => ⟨rfl, rfl⟩, fun j hj1 hj2 => (by omega : False).elim,
            fun j hj => ⟨rfl, rfl⟩, rfl⟩⟩
  | succ k ih =>
    intro old new hk hmL
    have hi : L - (k + 1) + (k + 1) = L := by omega
    set i := L - (k + 1) with hidef
    have himid : mid ≤ i := by omega
    have hstep : leafMoveLoop mid L old new (k + 1) =
        leafMoveLoop mid L
          { old with keyArray := upd old.keyArray i 0,
                     ridArray := upd old.ridArray i ⟨0, (old.ridArray i).slot_number⟩ }
          { new with keyArray := upd new.keyArray (i - mid) (old.keyArray i),
                     ridArray := upd new.ridArray (i - mid) (old.ridArray i) } k := by
      conv_lhs => rw [leafMoveLoop]
    set old' : LeafNodeInt :=
      { old with keyArray := upd old.keyArray i 0,
                 ridArray := upd old.ridArray i ⟨0, (old.ridArray i).slot_number⟩ } with hold'
    set new' : LeafNodeInt :=
      { new with keyArray := upd new.keyArray (i - mid) (old.keyArray i),
                 ridArray := upd new.ridArray (i - mid) (old.ridArray i) } with hnew'
    obtain ⟨⟨ho1, ho2, ho3, ho4⟩, ⟨hn1, hn2, hn3, hn4⟩⟩ := ih old' new' (by omega) hmL
    rw [hstep]
    refine ⟨⟨?_, ?_, ?_, ?_⟩, ⟨?_, ?_, ?_, ?_⟩⟩
    · intro j hj
      obtain ⟨h1, h2⟩ := ho1 j (by omega)
      refine ⟨?_, ?_⟩
      · rw [h1]; simp only [hold']; exact upd_ne _ _ _ _ (by omega)
      · rw [h2]; simp only [hold']; exact upd_ne _ _ _ _ (by omega)
    · intro j hj1 hj2
      by_cases hji : j = i
      · obtain ⟨h1, h2⟩ := ho1 j (by omega)
        rw [hji] at h1 h2 ⊢
        refine ⟨by rw [h1]; simp [hold', upd_same], by rw [h2]; simp [hold', upd_same]⟩
      · obtain ⟨h1, h2⟩ := ho2 j (by omega) hj2
        refine ⟨by rw [h1], ?_⟩
        rw [h2]
        have : old'.ridArray j = old.ridArray j := by
          simp only [hold']; exact upd_ne _ _ _ _ hji
        rw [this]
    · intro j hj
      obtain ⟨h1, h2⟩ := ho3 j hj
      refine ⟨?_, ?_⟩
      · rw [h1]; simp only [hold']; exact upd_ne _ _ _ _ (by omega)
      · rw [h2]; simp only [hold']; exact upd_ne _ _ _ _ (by omega)
    · rw [ho4]
    · intro j hj
      obtain ⟨h1, h2⟩ := hn1 j (by omega)
      refine ⟨?_, ?_⟩
      · rw [h1]; simp only [hnew']; exact upd_ne _ _ _ _ (by omega)
      · rw [h2]; simp only [hnew']; exact upd_ne _ _ _ _ (by omega)
    · intro j hj1 hj2
      by_cases hji : j + mid = i
      · obtain ⟨h1, h2⟩ := hn1 j (by omega)
        have hjim : j = i - mid := by omega
        rw [hji]
        refine ⟨?_, ?_⟩
        · rw [h1]; simp only [hnew', hjim]; exact upd_same _ _ _
        · rw [h2]; simp only [hnew', hjim]; exact upd_same _ _ _
      · obtain ⟨h1, h2⟩ := hn2 j (by omega) hj2
        refine ⟨?_, ?_⟩
        · rw [h1]; simp only [hold']; exact upd_ne _ _ _ _ (by omega)
        · rw [h2]; simp only [hold']; exact upd_ne _ _ _ _ (by omega)
    · intro j hj
      obtain ⟨h1, h2⟩ := hn3 j hj
      refine ⟨?_, ?_⟩
      · rw [h1]; simp only [hnew']; exact upd_ne _ _ _ _ (by omega)
      · rw [h2]; simp only [hnew']; exact upd_ne _ _ _ _ (by omega)
    · rw [hn4]

/-- `insertLeafNode` never touches the right-sibling pointer. -/
theorem insertLeafNode_rightSib (L : Nat) (l : LeafNodeInt) (entry : RIDKeyPair) :
    (insertLeafNode L l entry).rightSibPageNo = l.rightSibPageNo := by
  unfold insertLeafNode
  by_cases h : (l.ridArray 0).page_number = 0
  · simp [h, setLeafSlot]
  · simp only [h, if_neg, if_false]
    obtain ⟨q, _, _, _, _, _, _, _, _, hsib⟩ :=
      leafShiftInsert_spec entry (leafTailSearch l L) l
    exact hsib

/-- C6 (as claimed): `splitLeafNode` on a full sorted leaf moves the entries
from index `mid` onward into the new leaf, inserts the incoming entry into
the new leaf exactly when its key exceeds `keyArray[mid-1]` (else into the
old leaf), chains the new leaf between the old leaf and its former right
sibling, and promotes `(new_leaf_pid, new_leaf.keyArray[0])`. -/
theorem c6_split_leaf (L mid : Nat) (leaf : LeafNodeInt) (newPid : Nat)
    (entry : RIDKeyPair)
    (hL : 2 ≤ L)
    (hmid : mid = if L % 2 = 1 ∧ entry.key > leaf.keyArray (L / 2) then L / 2 + 1 else L / 2)
    (hfull : ∀ i, i < L → (leaf.ridArray i).page_number ≠ 0)
    (hsorted : ∀ i, i + 1 < L → leaf.keyArray i ≤ leaf.keyArray (i + 1))
    (hrid : entry.rid.page_number ≠ 0)
    (hdist : ∀ i, i < L → leaf.ridArray i ≠ entry.rid)
    (hdist2 : ∀ i j, i < j → j < L → leaf.ridArray i ≠ leaf.ridArray j) :
    (splitLeafNode L leaf newPid entry).1.rightSibPageNo = newPid ∧
    (splitLeafNode L leaf newPid entry).2.1.rightSibPageNo = leaf.rightSibPageNo ∧
    (splitLeafNode L leaf newPid entry).2.2 =
      ⟨newPid, (splitLeafNode L leaf newPid entry).2.1.keyArray 0⟩ ∧
    (∀ i, mid ≤ i → i < L → ∃ j, j < L ∧
      (splitLeafNode L leaf newPid entry).2.1.keyArray j = leaf.keyArray i ∧
      (splitLeafNode L leaf newPid entry).2.1.ridArray j = leaf.ridArray i) ∧
    (∀ i, mid ≤ i → i < L → ∀ j, j < L →
      (splitLeafNode L leaf newPid entry).1.ridArray j ≠ leaf.ridArray i) ∧
    (∀ i, i < mid → ∃ j, j < L ∧
      (splitLeafNode L leaf newPid entry).1.keyArray j = leaf.keyArray i ∧
      (splitLeafNode L leaf newPid entry).1.ridArray j = leaf.ridArray i) ∧
    (entry.key > leaf.keyArray (mid - 1) →
      (∃ j, j < L ∧ (splitLeafNode L leaf newPid entry).2.1.keyArray j = entry.key ∧
        (splitLeafNode L leaf newPid entry).2.1.ridArray j = entry.rid) ∧
      (∀ j, j < L → (splitLeafNode L leaf newPid entry).1.ridArray j ≠ entry.rid)) ∧
    (¬ entry.key > leaf.keyArray (mid - 1) →
      (∃ j, j < L ∧ (splitLeafNode L leaf newPid entry).1.keyArray j = entry.key ∧
        (splitLeafNode L leaf newPid entry).1.ridArray j = entry.rid) ∧
      (∀ j, j < L → (splitLeafNode L leaf newPid entry).2.1.ridArray j ≠ entry.rid)) := by
  -- arithmetic facts about the split point
  have hmid1 : 1 ≤ mid := by
    rw [hmid]; split <;> omega
  have hmidL : mid < L := by
    rw [hmid]; split <;> omega
  -- the move loop
  obtain ⟨⟨mo1, mo2, mo3, mo4⟩, ⟨mn1, mn2, mn3, mn4⟩⟩ :=
    leafMoveLoop_spec mid L (L - mid) leaf zeroLeaf (le_refl _) (by omega)
  have hLk : L - (L - mid) = mid := by omega
  rw [hLk] at mo1 mo2 mn1 mn2
  set old1 := (leafMoveLoop mid L leaf zeroLeaf (L - mid)).1 with hold1
  set new1 := (leafMoveLoop mid L leaf zeroLeaf (L - mid)).2 with hnew1
  -- the branch condition reads the untouched prefix of the old leaf
  have hcondkey : old1.keyArray (mid - 1) = leaf.keyArray (mid - 1) :=
    (mo1 (mid - 1) (by omega)).1
  -- facts about new1: it holds leaf[mid..L) in slots [0..L-mid)
  have hn1key : ∀ j, j < L - mid → new1.keyArray j = leaf.keyArray (j + mid) := by
    intro j hj; exact (mn2 j (by omega) (by omega)).1
  have hn1rid : ∀ j, j < L - mid → new1.ridArray j = leaf.ridArray (j + mid) := by
    intro j hj; exact (mn2 j (by omega) (by omega)).2
  have hn1abs : ∀ j, L - mid ≤ j → (new1.ridArray j).page_number = 0 := by
    intro j hj
    rcases Nat.lt_or_ge (j + mid) L with h | h
    · exfalso; omega
    · rw [(mn3 j h).2]; rfl
  have ho1pre : ∀ j, j < mid → old1.keyArray j = leaf.keyArray j ∧
      old1.ridArray j = leaf.ridArray j := fun j hj => mo1 j hj
  have ho1abs : ∀ j, mid ≤ j → j < L → (old1.ridArray j).page_number = 0 := by
    intro j hj1 hj2
    rw [(mo2 j hj1 hj2).2]
  -- unfold the split into its branch
  by_cases hcase : entry.key > old1.keyArray (mid - 1)
  · -- the entry goes into the NEW leaf
    have hsplit : splitLeafNode L leaf newPid entry =
        ({ old1 with rightSibPageNo := newPid },
         { insertLeafNode L new1 entry with rightSibPageNo := old1.rightSibPageNo },
         ⟨newPid, (insertLeafNode L new1 entry).keyArray 0⟩) := by
      simp only [splitLeafNode]
      rw [← hmid, ← hold1, ← hnew1, if_pos hcase]
    obtain ⟨p, hpn, hpleft, hpright, hpkey, hprid, hplow, hpshift, hppres, hpabs, hpsort⟩ :=
      insertLeafNode_spec L (L - mid) new1 entry (by omega)
        (by intro i hi; rw [hn1rid i hi]; exact hfull (i + mid) (by omega))
        (fun i hi _ => hn1abs i hi)
        (by intro i hi
            rw [hn1key i (by omega), hn1key (i + 1) (by omega)]
            have h := hsorted (i + mid) (by omega)
            have he : i + mid + 1 = i + 1 + mid := by omega
            rwa [he] at h)
        hrid
    rw [hsplit]
    refine ⟨rfl, mo4, rfl, ?_, ?_, ?_, ?_, ?_⟩
    · -- moved entries reachable in the new leaf
      intro i hi1 hi2
      have hjm : i - mid < L - mid := by omega
      have hje : (i - mid) + mid = i := by omega
      rcases Nat.lt_or_ge (i - mid) p with h | h
      · refine ⟨i - mid, by omega, ?_, ?_⟩
        · rw [(hplow (i - mid) h).1, hn1key (i - mid) hjm, hje]
        · rw [(hplow (i - mid) h).2, hn1rid (i - mid) hjm, hje]
      · refine ⟨(i - mid) + 1, by omega, ?_, ?_⟩
        · rw [(hpshift (i - mid) h hjm).1, hn1key (i - mid) hjm, hje]
        · rw [(hpshift (i - mid) h hjm).2, hn1rid (i - mid) hjm, hje]
    · -- moved entries no longer in the old leaf
      intro i hi1 hi2 j hj
      rcases Nat.lt_or_ge j mid with h | h
      · rw [(ho1pre j h).2]
        exact hdist2 j i (by omega) hi2
      · intro hcontra
        have h0 : (old1.ridArray j).page_number = 0 := ho1abs j h hj
        rw [hcontra] at h0
        exact hfull i hi2 h0
    · -- prefix entries stay in the old leaf
      intro i hi
      exact ⟨i, by omega, (ho1pre i hi).1, (ho1pre i hi).2⟩
    · -- the entry itself is in the new leaf, not the old one
      intro hgt
      refine ⟨⟨p, by omega, hpkey, hprid⟩, ?_⟩
      intro j hj hcontra
      rcases Nat.lt_or_ge j mid with h | h
      · rw [(ho1pre j h).2] at hcontra
        exact hdist j (by omega) hcontra
      · have h0 : (old1.ridArray j).page_number = 0 := ho1abs j h hj
        rw [hcontra] at h0
        exact hrid h0
    · -- contradiction with the branch taken
      intro hng
      rw [hcondkey] at hcase
      exact absurd hcase hng
  · -- the entry goes into the OLD leaf
    have hsplit : splitLeafNode L leaf newPid entry =
        ({ insertLeafNode L old1 entry with rightSibPageNo := newPid },
         { new1 with rightSibPageNo := (insertLeafNode L old1 entry).rightSibPageNo },
         ⟨newPid, new1.keyArray 0⟩) := by
      simp only [splitLeafNode]
      rw [← hmid, ← hold1, ← hnew1, if_neg hcase]
    obtain ⟨p, hpn, hpleft, hpright, hpkey, hprid, hplow, hpshift, hppres, hpabs, hpsort⟩ :=
      insertLeafNode_spec L mid old1 entry (by omega)
        (by intro i hi; rw [(ho1pre i hi).2]; exact hfull i (by omega))
        (fun i hi1 hi2 => ho1abs i hi1 hi2)
        (by intro i hi
            rw [(ho1pre i (by omega)).1, (ho1pre (i + 1) (by omega)).1]
            exact hsorted i (by omega))
        hrid
    rw [hsplit]
    have hsibeq : (insertLeafNode L old1 entry).rightSibPageNo = leaf.rightSibPageNo := by
      rw [insertLeafNode_rightSib, mo4]
    refine ⟨rfl, hsibeq, rfl, ?_, ?_, ?_, ?_, ?_⟩
    · -- moved entries are in the new leaf (untouched in this branch)
      intro i hi1 hi2
      have hjm : i - mid < L - mid := by omega
      have hje : (i - mid) + mid = i := by omega
      refine ⟨i - mid, by omega, ?_, ?_⟩
      · rw [hn1key (i - mid) hjm, hje]
      · rw [hn1rid (i - mid) hjm, hje]
    · -- moved entries no longer in the old leaf
      intro i hi1 hi2 j hj
      intro hcontra
      rcases Nat.lt_trichotomy j p with h | h | h
      · rw [(hplow j h).2, (ho1pre j (by omega)).2] at hcontra
        exact hdist2 j i (by omega) hi2 hcontra
      · rw [h, hprid] at hcontra
        exact hdist i hi2 hcontra.symm
      · rcases Nat.lt_or_ge j (mid + 1) with h2 | h2
        · have hj1 : j - 1 < mid := by omega
          have hje : (j - 1) + 1 = j := by omega
          have := (hpshift (j - 1) (by omega) (by omega)).2
          rw [hje] at this
          rw [this, (ho1pre (j - 1) hj1).2] at hcontra
          exact hdist2 (j - 1) i (by omega) hi2 hcontra
        · have h0 : ((insertLeafNode L old1 entry).ridArray j).page_number = 0 :=
            hpabs j (by omega) hj
          rw [hcontra] at h0
          exact hfull i hi2 h0
    · -- prefix entries stay in the old leaf (possibly shifted by the insert)
      intro i hi
      rcases Nat.lt_or_ge i p with h | h
      · exact ⟨i, by omega, by rw [(hplow i h).1, (ho1pre i hi).1],
          by rw [(hplow i h).2, (ho1pre i hi).2]⟩
      · exact ⟨i + 1, by omega, by rw [(hpshift i h hi).1, (ho1pre i hi).1],
          by rw [(hpshift i h hi).2, (ho1pre i hi).2]⟩
    · -- contradiction with the branch taken
      intro hgt
      rw [hcondkey] at hcase
      exact absurd hgt hcase
    · -- the entry itself is in the old leaf, not the new one
      intro hng
      refine ⟨⟨p, by omega, hpkey, hprid⟩, ?_⟩
      intro j hj hcontra
      rcases Nat.lt_or_ge j (L - mid) with h | h
      · rw [hn1rid j h] at hcontra
        exact hdist (j + mid) (by omega) hcontra
      · have h0 : (new1.ridArray j).page_number = 0 := hn1abs j h
        rw [hcontra] at h0
        exact hrid h0

/-- Concrete full leaf used by the `c6_split_leaf` witness: keys 10..50. -/
def c6Leaf : LeafNodeInt :=
  ⟨fun i => if i < 5 then 10 * ((i : Int) + 1) else 0,
   fun i => if i < 5 then ⟨9, i⟩ else RecordId.zero, 0⟩

/-- Witness for `c6_split_leaf`: splitting the full 5-entry leaf 10..50 with
incoming key 60 (so `mid = 3` by the odd-occupancy rule). -/
theorem c6_split_leaf_witness :
    (splitLeafNode 5 c6Leaf 77 ⟨⟨9, 9⟩, 60⟩).1.rightSibPageNo = 77 ∧
    (splitLeafNode 5 c6Leaf 77 ⟨⟨9, 9⟩, 60⟩).2.1.rightSibPageNo = c6Leaf.rightSibPageNo ∧
    (splitLeafNode 5 c6Leaf 77 ⟨⟨9, 9⟩, 60⟩).2.2 =
      ⟨77, (splitLeafNode 5 c6Leaf 77 ⟨⟨9, 9⟩, 60⟩).2.1.keyArray 0⟩ ∧
    (∀ i, 3 ≤ i → i < 5 → ∃ j, j < 5 ∧
      (splitLeafNode 5 c6Leaf 77 ⟨⟨9, 9⟩, 60⟩).2.1.keyArray j = c6Leaf.keyArray i ∧
      (splitLeafNode 5 c6Leaf 77 ⟨⟨9, 9⟩, 60⟩).2.1.ridArray j = c6Leaf.ridArray i) ∧
    (∀ i, 3 ≤ i → i < 5 → ∀ j, j < 5 →
      (splitLeafNode 5 c6Leaf 77 ⟨⟨9, 9⟩, 60⟩).1.ridArray j ≠ c6Leaf.ridArray i) ∧
    (∀ i, i < 3 → ∃ j, j < 5 ∧
      (splitLeafNode 5 c6Leaf 77 ⟨⟨9, 9⟩, 60⟩).1.keyArray j = c6Leaf.keyArray i ∧
      (splitLeafNode 5 c6Leaf 77 ⟨⟨9, 9⟩, 60⟩).1.ridArray j = c6Leaf.ridArray i) ∧
    ((60 : Int) > c6Leaf.keyArray (3 - 1) →
      (∃ j, j < 5 ∧ (splitLeafNode 5 c6Leaf 77 ⟨⟨9, 9⟩, 60⟩).2.1.keyArray j = 60 ∧
        (splitLeafNode 5 c6Leaf 77 ⟨⟨9, 9⟩, 60⟩).2.1.ridArray j = ⟨9, 9⟩) ∧
      (∀ j, j < 5 → (splitLeafNode 5 c6Leaf 77 ⟨⟨9, 9⟩, 60⟩).1.ridArray j ≠ ⟨9, 9⟩)) ∧
    (¬ (60 : Int) > c6Leaf.keyArray (3 - 1) →
      (∃ j, j < 5 ∧ (splitLeafNode 5 c6Leaf 77 ⟨⟨9, 9⟩, 60⟩).1.keyArray j = 60 ∧
        (splitLeafNode 5 c6Leaf 77 ⟨⟨9, 9⟩, 60⟩).1.ridArray j = ⟨9, 9⟩) ∧
      (∀ j, j < 5 → (splitLeafNode 5 c6Leaf 77 ⟨⟨9, 9⟩, 60⟩).2.1.ridArray j ≠ ⟨9, 9⟩)) :=
  c6_split_leaf 5 3 c6Leaf 77 ⟨⟨9, 9⟩, 60⟩ (by decide) (by decide)
    (by intro i hi; interval_cases i <;> decide)
    (by intro i hi; have hub : i < 4 := by omega
        interval_cases i <;> decide)
    (by decide)
    (by intro i hi; interval_cases i <;> decide)
    (by intro i j h1 h2; interval_cases j <;> interval_cases i <;> decide)

/-!
## Claim C2: `splitNonLeafNode`
-/

/-- Characterization of the move loop of `splitNonLeafNode` with `k`
remaining iterations (source indices `N - k, ..., N - 1`).  Because the loop
clears `old.keyArray[i+1]` before the next iteration reads it, only the first
moved key is genuine: every later key slot of the new node receives `0`. -/
theorem nonLeafMoveLoop_spec (mid N : Nat) :
    ∀ (k : Nat) (old new : NonLeafNodeInt), k ≤ N - mid → mid ≤ N →
      ((∀ j, j < N - k + 1 → (nonLeafMoveLoop mid N old new k).1.keyArray j = old.keyArray j ∧
          (nonLeafMoveLoop mid N old new k).1.pageNoArray j = old.pageNoArray j) ∧
       (∀ j, N - k + 1 ≤ j → j ≤ N → (nonLeafMoveLoop mid N old new k).1.keyArray j = 0 ∧
          (nonLeafMoveLoop mid N old new k).1.pageNoArray j = 0) ∧
       (∀ j, N < j → (nonLeafMoveLoop mid N old new k).1.keyArray j = old.keyArray j ∧
          (nonLeafMoveLoop mid N old new k).1.pageNoArray j = old.pageNoArray j) ∧
       (nonLeafMoveLoop mid N old new k).1.level = old.level) ∧
      ((∀ j, j + mid < N - k → (nonLeafMoveLoop mid N old new k).2.keyArray j = new.keyArray j ∧
          (nonLeafMoveLoop mid N old new k).2.pageNoArray j = new.pageNoArray j) ∧
       (∀ j, j + mid = N - k → k ≠ 0 →
          (nonLeafMoveLoop mid N old new k).2.keyArray j = old.keyArray (N - k)) ∧
       (∀ j, N - k < j + mid → j + mid < N → (nonLeafMoveLoop mid N old new k).2.keyArray j = 0) ∧
       (∀ j, N - k ≤ j + mid → j + mid < N →
          (nonLeafMoveLoop mid N old new k).2.pageNoArray j = old.pageNoArray (j + mid + 1)) ∧
       (∀ j, N ≤ j + mid → (nonLeafMoveLoop mid N old new k).2.keyArray j = new.keyArray j ∧
          (nonLeafMoveLoop mid N old new k).2.pageNoArray j = new.pageNoArray j) ∧
       (nonLeafMoveLoop mid N old new k).2.level = new.level) := by
  intro k
  induction k with
  | zero =>
    intro old new hk hmN
    exact ⟨⟨fun j hj => ⟨rfl, rfl⟩, fun j hj1 hj2 => (by omega : False).elim,
            fun j hj => ⟨rfl, rfl⟩, rfl⟩,
           ⟨fun j hj => ⟨rfl, rfl⟩, fun j hj hk0 => (hk0 rfl).elim,
            fun j hj1 hj2 => (by omega : False).elim,
            fun j hj1 hj2 => (by omega : False).elim,
            fun j hj => ⟨rfl, rfl⟩, rfl⟩⟩
  | succ k ih =>
    intro old new hk hmN
    set i := N - (k + 1) with hidef
    have himid : mid ≤ i := by omega
    have hstep : nonLeafMoveLoop mid N old new (k + 1) =
        nonLeafMoveLoop mid N
          { old with pageNoArray := upd old.pageNoArray (i + 1) 0,
                     keyArray := upd old.keyArray (i + 1) 0 }
          { new with keyArray := upd new.keyArray (i - mid) (old.keyArray i),
                     pageNoArray := upd new.pageNoArray (i - mid) (old.pageNoArray (i + 1)) } k := by
      conv_lhs => rw [nonLeafMoveLoop]
    set old' : NonLeafNodeInt :=
      { old with pageNoArray := upd old.pageNoArray (i + 1) 0,
                 keyArray := upd old.keyArray (i + 1) 0 } with hold'
    set new' : NonLeafNodeInt :=
      { new with keyArray := upd new.keyArray (i - mid) (old.keyArray i),
                 pageNoArray := upd new.pageNoArray (i - mid) (old.pageNoArray (i + 1)) } with hnew'
    obtain ⟨⟨ho1, ho2, ho3, ho4⟩, ⟨hn1, hn2, hn3, hn4, hn5, hn6⟩⟩ := ih old' new' (by omega) hmN
    rw [hstep]
    have hNk : N - k = i + 1 := by omega
    refine ⟨⟨?_, ?_, ?_, ?_⟩, ⟨?_, ?_, ?_, ?_, ?_, ?_⟩⟩
    · -- old, untouched region j < i + 1
      intro j hj
      obtain ⟨h1, h2⟩ := ho1 j (by omega)
      exact ⟨by rw [h1]; simp only [hold']; exact upd_ne _ _ _ _ (by omega),
             by rw [h2]; simp only [hold']; exact upd_ne _ _ _ _ (by omega)⟩
    · -- old, cleared region [i + 1, N]
      intro j hj1 hj2
      by_cases hji : j = i + 1
      · obtain ⟨h1, h2⟩ := ho1 j (by omega)
        rw [hji] at h1 h2 ⊢
        exact ⟨by rw [h1]; simp [hold', upd_same], by rw [h2]; simp [hold', upd_same]⟩
      · exact ho2 j (by omega) hj2
    · -- old, beyond N
      intro j hj
      obtain ⟨h1, h2⟩ := ho3 j hj
      exact ⟨by rw [h1]; simp only [hold']; exact upd_ne _ _ _ _ (by omega),
             by rw [h2]; simp only [hold']; exact upd_ne _ _ _ _ (by omega)⟩
    · exact ho4
    · -- new, untouched region j + mid < i + 1
      intro j hj
      obtain ⟨h1, h2⟩ := hn1 j (by omega)
      exact ⟨by rw [h1]; simp only [hnew']; exact upd_ne _ _ _ _ (by omega),
             by rw [h2]; simp only [hnew']; exact upd_ne _ _ _ _ (by omega)⟩
    · -- new, the first moved key is genuine (this step's own write, below the
      -- sub-run's write range)
      intro j hj hk0
      have hji : j = i - mid := by omega
      obtain ⟨h1, _⟩ := hn1 j (by omega)
      rw [h1, hji]
      simp only [hnew']
      rw [upd_same]
    · -- new, zero keys: slots whose source key was cleared by a previous step
      intro j hj1 hj2
      rcases Nat.lt_or_ge (j + mid) (N - k + 1) with h | h
      · -- j + mid = N - k: the sub-run's first read sees the cleared old'.key
        have hji : j + mid = N - k := by omega
        rcases Nat.eq_zero_or_pos k with hk' | hk'
        · omega
        · have h1 := hn2 j hji (by omega)
          rw [h1, hNk]
          simp [hold', upd_same]
      · have h1 := hn3 j (by omega) hj2
        exact h1
    · -- new, moved children are genuine
      intro j hj1 hj2
      rcases Nat.lt_or_ge (j + mid) (N - k) with h | h
      · -- j + mid = i: this step's own write, untouched by the sub-run
        have hji : j + mid = i := by omega
        obtain ⟨_, h2⟩ := hn1 j (by omega)
        rw [h2]
        have hjm : j = i - mid := by omega
        simp only [hnew', hjm]
        rw [upd_same]
        congr 1
        omega
      · have h2 := hn4 j h hj2
        rw [h2]
        simp only [hold']
        exact upd_ne _ _ _ _ (by omega)
    · -- new, beyond N
      intro j hj
      obtain ⟨h1, h2⟩ := hn5 j hj
      exact ⟨by rw [h1]; simp only [hnew']; exact upd_ne _ _ _ _ (by omega),
             by rw [h2]; simp only [hnew']; exact upd_ne _ _ _ _ (by omega)⟩
    · exact hn6

/-- Key values written by the shift-and-place loop of `insertNonLeafNode`
come from the node itself or the inserted entry, so a key value absent
before stays absent (within the first `N + 1` key slots). -/
theorem nonLeafShiftInsert_key_notin (entry : PageKeyPair) (v : Int) (N : Nat) :
    ∀ (a : Nat) (n : NonLeafNodeInt), a ≤ N →
      (∀ j, j ≤ N → n.keyArray j ≠ v) → entry.key ≠ v →
      ∀ j, j ≤ N → (nonLeafShiftInsert entry n a).keyArray j ≠ v := by
  intro a
  induction a with
  | zero =>
    intro n ha hn he j hj
    simp only [nonLeafShiftInsert]
    by_cases hj0 : j = 0
    · rw [hj0, upd_same]; exact he
    · rw [upd_ne _ _ _ _ hj0]; exact hn j hj
  | succ a ih =>
    intro n ha hn he j hj
    simp only [nonLeafShiftInsert]
    by_cases h : n.keyArray a > entry.key
    · rw [if_pos h]
      refine ih _ (by omega) ?_ he j hj
      intro j' hj'
      by_cases hja : j' = a + 1
      · rw [hja]
        show upd n.keyArray (a + 1) (n.keyArray a) (a + 1) ≠ v
        rw [upd_same]; exact hn a (by omega)
      · show upd n.keyArray (a + 1) (n.keyArray a) j' ≠ v
        rw [upd_ne _ _ _ _ hja]; exact hn j' hj'
    · rw [if_neg h]
      by_cases hja : j = a + 1
      · rw [hja]
        show upd n.keyArray (a + 1) entry.key (a + 1) ≠ v
        rw [upd_same]; exact he
      · show upd n.keyArray (a + 1) entry.key j ≠ v
        rw [upd_ne _ _ _ _ hja]; exact hn j hj

/-- Child-page values written by the shift-and-place loop of
`insertNonLeafNode` come from the node itself or the inserted entry. -/
theorem nonLeafShiftInsert_pno_notin (entry : PageKeyPair) (v : Nat) (N : Nat) :
    ∀ (a : Nat) (n : NonLeafNodeInt), a ≤ N →
      (∀ j, j ≤ N → n.pageNoArray j ≠ v) → entry.pageNo ≠ v →
      ∀ j, j ≤ N → (nonLeafShiftInsert entry n a).pageNoArray j ≠ v := by
  intro a
  induction a with
  | zero =>
    intro n ha hn he j hj
    simp only [nonLeafShiftInsert]
    by_cases hj0 : j = 1
    · rw [hj0, upd_same]; exact he
    · rw [upd_ne _ _ _ _ hj0]; exact hn j hj
  | succ a ih =>
    intro n ha hn he j hj
    simp only [nonLeafShiftInsert]
    by_cases h : n.keyArray a > entry.key
    · rw [if_pos h]
      refine ih _ (by omega) ?_ he j hj
      intro j' hj'
      by_cases hja : j' = a + 2
      · rw [hja]
        show upd n.pageNoArray (a + 2) (n.pageNoArray (a + 1)) (a + 2) ≠ v
        rw [upd_same]; exact hn (a + 1) (by omega)
      · show upd n.pageNoArray (a + 2) (n.pageNoArray (a + 1)) j' ≠ v
        rw [upd_ne _ _ _ _ hja]; exact hn j' hj'
    · rw [if_neg h]
      by_cases hja : j = a + 2
      · rw [hja]
        show upd n.pageNoArray (a + 2) entry.pageNo (a + 2) ≠ v
        rw [upd_same]; exact he
      · show upd n.pageNoArray (a + 2) entry.pageNo j ≠ v
        rw [upd_ne _ _ _ _ hja]; exact hn j hj

/-- `insertNonLeafNode` cannot introduce a key value that was absent. -/
theorem insertNonLeafNode_key_notin (N : Nat) (n : NonLeafNodeInt)
    (entry : PageKeyPair) (v : Int)
    (hn : ∀ j, j ≤ N → n.keyArray j ≠ v) (he : entry.key ≠ v) :
    ∀ j, j ≤ N → (insertNonLeafNode N n entry).keyArray j ≠ v := by
  intro j hj
  unfold insertNonLeafNode
  have htail : ∀ c, c ≤ N + 1 → nonLeafTailSearch n c ≤ N + 1 := by
    intro c
    induction c with
    | zero => intro h0; simp [nonLeafTailSearch]
    | succ c ihc =>
      intro hc
      simp only [nonLeafTailSearch]
      by_cases h : n.pageNoArray c = 0
      · rw [if_pos h]; exact ihc (by omega)
      · rw [if_neg h]; omega
  rcases hcase : nonLeafTailSearch n (N + 1) with _ | i
  · exact nonLeafShiftInsert_key_notin entry v N 0 n (by omega) hn he j hj
  · have hi : i + 1 ≤ N + 1 := by
      have := htail (N + 1) (le_refl _)
      rw [hcase] at this
      exact this
    exact nonLeafShiftInsert_key_notin entry v N i n (by omega) hn he j hj

/-- `insertNonLeafNode` cannot introduce a child-page value that was absent. -/
theorem insertNonLeafNode_pno_notin (N : Nat) (n : NonLeafNodeInt)
    (entry : PageKeyPair) (v : Nat)
    (hn : ∀ j, j ≤ N → n.pageNoArray j ≠ v) (he : entry.pageNo ≠ v) :
    ∀ j, j ≤ N → (insertNonLeafNode N n entry).pageNoArray j ≠ v := by
  intro j hj
  unfold insertNonLeafNode
  have htail : ∀ c, c ≤ N + 1 → nonLeafTailSearch n c ≤ N + 1 := by
    intro c
    induction c with
    | zero => intro h0; simp [nonLeafTailSearch]
    | succ c ihc =>
      intro hc
      simp only [nonLeafTailSearch]
      by_cases h : n.pageNoArray c = 0
      · rw [if_pos h]; exact ihc (by omega)
      · rw [if_neg h]; omega
  rcases hcase : nonLeafTailSearch n (N + 1) with _ | i
  · exact nonLeafShiftInsert_pno_notin entry v N 0 n (by omega) hn he j hj
  · have hi : i + 1 ≤ N + 1 := by
      have := htail (N + 1) (le_refl _)
      rw [hcase] at this
      exact this
    exact nonLeafShiftInsert_pno_notin entry v N i n (by omega) hn he j hj

/-- C2 (amended): `split_internal` promotes `old.keyArray[push_up_index]` with
`push_up_index` computed exactly by the claim's parity rule, and afterwards
the promoted key appears in neither node; however the promoted key's LEFT
child `old.pageNoArray[push_up_index]` does NOT remain a child of the old
node — the split clears that slot and the child page becomes unreachable
from both resulting nodes (it is orphaned). -/
theorem c2_split_internal (N muI : Nat) (old : NonLeafNodeInt) (newPid : Nat)
    (entry : PageKeyPair)
    (hN : 3 ≤ N)
    (hmu : muI = if N % 2 = 0 then
        (if entry.key < old.keyArray (N / 2) then N / 2 - 1 else N / 2) else N / 2)
    (hfull : ∀ j, j ≤ N → old.pageNoArray j ≠ 0)
    (hsorted : ∀ i j, i < j → j < N → old.keyArray i < old.keyArray j)
    (hpz : old.keyArray muI ≠ 0)
    (hek : entry.key ≠ old.keyArray muI)
    (hcdist : ∀ i j, i < j → j ≤ N → old.pageNoArray i ≠ old.pageNoArray j)
    (hepno : entry.pageNo ≠ old.pageNoArray muI) :
    (splitNonLeafNode N old newPid entry).2.2 = ⟨newPid, old.keyArray muI⟩ ∧
    (∀ j, j ≤ N → (splitNonLeafNode N old newPid entry).1.keyArray j ≠ old.keyArray muI) ∧
    (∀ j, j ≤ N → (splitNonLeafNode N old newPid entry).2.1.keyArray j ≠ old.keyArray muI) ∧
    (∀ j, j ≤ N → (splitNonLeafNode N old newPid entry).1.pageNoArray j ≠ old.pageNoArray muI) ∧
    (∀ j, j ≤ N → (splitNonLeafNode N old newPid entry).2.1.pageNoArray j ≠ old.pageNoArray muI) := by
  have hmuhalf : muI ≤ N / 2 := by
    rw [hmu]
    split
    · split <;> omega
    · omega
  have hmuN : muI + 1 < N := by omega
  have hNk : N - (N - (muI + 1)) = muI + 1 := by omega
  obtain ⟨⟨mo1, mo2, mo3, mo4⟩, ⟨mn1, mn2, mn3, mn4, mn5, mn6⟩⟩ :=
    nonLeafMoveLoop_spec (muI + 1) N (N - (muI + 1)) old zeroNonLeaf (le_refl _) (by omega)
  rw [hNk] at mo1 mo2 mn1 mn2 mn3 mn4
  simp only [splitNonLeafNode]
  rw [← hmu]
  set moved := nonLeafMoveLoop (muI + 1) N old zeroNonLeaf (N - (muI + 1)) with hmoved
  set old1 : NonLeafNodeInt :=
    { level := moved.1.level, keyArray := upd moved.1.keyArray muI 0,
      pageNoArray := upd moved.1.pageNoArray muI 0 } with hold1
  set new1 : NonLeafNodeInt :=
    { level := old.level, keyArray := moved.2.keyArray,
      pageNoArray := moved.2.pageNoArray } with hnew1
  have hOkey : ∀ j, j ≤ N → old1.keyArray j ≠ old.keyArray muI := by
    intro j hj
    show upd moved.1.keyArray muI 0 j ≠ old.keyArray muI
    by_cases hjm : j = muI
    · rw [hjm, upd_same]
      exact fun h => hpz h.symm
    · rw [upd_ne _ _ _ _ hjm]
      rcases Nat.lt_or_ge j (muI + 2) with h1 | h1
      · rw [(mo1 j (by omega)).1]
        rcases Nat.lt_trichotomy j muI with h2 | h2 | h2
        · exact ne_of_lt (hsorted j muI h2 (by omega))
        · exact absurd h2 hjm
        · exact (ne_of_lt (hsorted muI j h2 (by omega))).symm
      · rw [(mo2 j (by omega) hj).1]
        exact fun h => hpz h.symm
  have hOpno : ∀ j, j ≤ N → old1.pageNoArray j ≠ old.pageNoArray muI := by
    intro j hj
    show upd moved.1.pageNoArray muI 0 j ≠ old.pageNoArray muI
    by_cases hjm : j = muI
    · rw [hjm, upd_same]
      exact fun h => hfull muI (by omega) h.symm
    · rw [upd_ne _ _ _ _ hjm]
      rcases Nat.lt_or_ge j (muI + 2) with h1 | h1
      · rw [(mo1 j (by omega)).2]
        rcases Nat.lt_trichotomy j muI with h2 | h2 | h2
        · exact hcdist j muI h2 (by omega)
        · exact absurd h2 hjm
        · exact (hcdist muI j h2 (by omega)).symm
      · rw [(mo2 j (by omega) hj).2]
        exact fun h => hfull muI (by omega) h.symm
  have hNkey : ∀ j, j ≤ N → new1.keyArray j ≠ old.keyArray muI := by
    intro j hj
    show moved.2.keyArray j ≠ old.keyArray muI
    rcases Nat.eq_zero_or_pos j with hj0 | hj0
    · rw [hj0, mn2 0 (by omega) (by omega)]
      exact (ne_of_lt (hsorted muI (muI + 1) (by omega) (by omega))).symm
    · rcases Nat.lt_or_ge (j + (muI + 1)) N with h1 | h1
      · rw [mn3 j (by omega) h1]
        exact fun h => hpz h.symm
      · rw [(mn5 j h1).1]
        exact fun h => hpz h.symm
  have hNpno : ∀ j, j ≤ N → new1.pageNoArray j ≠ old.pageNoArray muI := by
    intro j hj
    show moved.2.pageNoArray j ≠ old.pageNoArray muI
    rcases Nat.lt_or_ge (j + (muI + 1)) N with h1 | h1
    · rw [mn4 j (by omega) h1]
      exact (hcdist muI (j + (muI + 1) + 1) (by omega) (by omega)).symm
    · rw [(mn5 j h1).2]
      exact fun h => hfull muI (by omega) h.symm
  by_cases hc : entry.key < new1.keyArray 0
  · rw [if_pos hc]
    exact ⟨rfl,
      insertNonLeafNode_key_notin N old1 entry (old.keyArray muI) hOkey hek,
      hNkey,
      insertNonLeafNode_pno_notin N old1 entry (old.pageNoArray muI) hOpno hepno,
      hNpno⟩
  · rw [if_neg hc]
    exact ⟨rfl,
      hOkey,
      insertNonLeafNode_key_notin N new1 entry (old.keyArray muI) hNkey hek,
      hOpno,
      insertNonLeafNode_pno_notin N new1 entry (old.pageNoArray muI) hNpno hepno⟩

/-- Concrete full internal node used for C2: separators 10, 20, 30, 40 and
children 1, 2, 3, 4, 5 (occupancy 4, even). -/
def c2Node : NonLeafNodeInt :=
  ⟨0, fun i => if i < 4 then 10 * ((i : Int) + 1) else 0,
      fun i => if i ≤ 4 then i + 1 else 0⟩

/-- C2 counterexample: splitting `c2Node` with incoming `(child 9, key 25)`
computes `push_up_index = 1` (even case, `25 < keyArray[2] = 30`), whose left
child is `pageNoArray[1] = 2`; after the split the old node's slot 1 is
cleared to 0 and child page 2 appears in NEITHER node, refuting the claim
that the promoted key's left child remains a present child of the old node. -/
theorem c2_left_child_cex :
    (if (4 : Nat) % 2 = 0 then
      (if (25 : Int) < c2Node.keyArray (4 / 2) then 4 / 2 - 1 else 4 / 2)
     else 4 / 2) = 1 ∧
    c2Node.pageNoArray 1 = 2 ∧
    c2Node.pageNoArray 1 ≠ 0 ∧
    (splitNonLeafNode 4 c2Node 88 ⟨9, 25⟩).1.pageNoArray 1 = 0 ∧
    (∀ j, j ≤ 4 → (splitNonLeafNode 4 c2Node 88 ⟨9, 25⟩).1.pageNoArray j ≠ 2) ∧
    (∀ j, j ≤ 4 → (splitNonLeafNode 4 c2Node 88 ⟨9, 25⟩).2.1.pageNoArray j ≠ 2) := by
  refine ⟨by decide, by decide, by decide, by decide, ?_, ?_⟩
  · intro j hj; interval_cases j <;> decide
  · intro j hj; interval_cases j <;> decide

/-- Witness for `c2_split_internal` at the concrete node `c2Node` with
incoming entry `(9, 25)`. -/
theorem c2_split_internal_witness :
    (splitNonLeafNode 4 c2Node 88 ⟨9, 25⟩).2.2 = ⟨88, c2Node.keyArray 1⟩ ∧
    (∀ j, j ≤ 4 → (splitNonLeafNode 4 c2Node 88 ⟨9, 25⟩).1.keyArray j ≠ c2Node.keyArray 1) ∧
    (∀ j, j ≤ 4 → (splitNonLeafNode 4 c2Node 88 ⟨9, 25⟩).2.1.keyArray j ≠ c2Node.keyArray 1) ∧
    (∀ j, j ≤ 4 → (splitNonLeafNode 4 c2Node 88 ⟨9, 25⟩).1.pageNoArray j ≠ c2Node.pageNoArray 1) ∧
    (∀ j, j ≤ 4 → (splitNonLeafNode 4 c2Node 88 ⟨9, 25⟩).2.1.pageNoArray j ≠ c2Node.pageNoArray 1) :=
  c2_split_internal 4 1 c2Node 88 ⟨9, 25⟩ (by decide) (by decide)
    (by intro j hj; interval_cases j <;> decide)
    (by intro i j h1 h2; interval_cases j <;> interval_cases i <;> decide)
    (by decide) (by decide)
    (by intro i j h1 h2; interval_cases j <;> interval_cases i <;> decide)
    (by decide)

/-!
## The index state machine

The remaining claims quantify over whole-index states reachable through the
public operations, so the buffer manager, the pages of the index file and the
scan cursor are modelled explicitly.  Pages are a total map from page id to a
typed page value; BadgerDB zero-fills freshly allocated pages, and
reinterpreting a page at the wrong variant (possible only along undefined
code paths) is modelled as reading the all-zero node of that variant.
Pin counts are an explicit map `Nat → Int`; `unPinPage` decrements even past
zero, which makes double-unpins observable.  Exceptions are explicit `Err`
results; the post-exception state is returned alongside, exactly as the
C++ object state persists after a throw.
-/

/-- `IndexMetaInfo` from `btree.h` (header page contents). -/
structure IndexMetaInfo where
  relationName : String
  attrByteOffset : Int
  attrType : Int
  rootPageNo : Nat
deriving DecidableEq, Repr

/-- A typed page of the index file. -/
inductive Pg where
  | free
  | leaf (l : LeafNodeInt)
  | intern (n : NonLeafNodeInt)
  | meta (m : IndexMetaInfo)

/-- Reinterpret a page as a leaf (zero page if it is not one). -/
def Pg.asLeaf : Pg → LeafNodeInt
  | Pg.leaf l => l
  | _ => zeroLeaf

/-- Reinterpret a page as an internal node (zero page if it is not one). -/
def Pg.asIntern : Pg → NonLeafNodeInt
  | Pg.intern n => n
  | _ => zeroNonLeaf

/-- Reinterpret a page as the meta page (zero meta if it is not one). -/
def Pg.asMeta : Pg → IndexMetaInfo
  | Pg.meta m => m
  | _ => ⟨"", 0, 0, 0⟩

/-- Whether a page currently holds a leaf node. -/
def Pg.isLeafPage : Pg → Bool
  | Pg.leaf _ => true
  | _ => false

/-- Whether a page currently holds an internal node. -/
def Pg.isInternPage : Pg → Bool
  | Pg.intern _ => true
  | _ => false

/-- Exceptions thrown by the index. -/
inductive Err where
  | badIndexInfo
  | badOpcodes
  | badScanrange
  | noSuchKeyFound
  | scanNotInit
  | indexScanCompleted
deriving DecidableEq, Repr

instance : DecidableEq (Except Err RecordId) := fun x y =>
  match x, y with
  | Except.ok a, Except.ok b =>
    if h : a = b then isTrue (by rw [h])
    else isFalse (by intro hc; cases hc; exact h rfl)
  | Except.error a, Except.error b =>
    if h : a = b then isTrue (by rw [h])
    else isFalse (by intro hc; cases hc; exact h rfl)
  | Except.ok _, Except.error _ => isFalse (by intro hc; cases hc)
  | Except.error _, Except.ok _ => isFalse (by intro hc; cases hc)

/-- Whole-index state: the member variables of `BTreeIndex`, the pages of the
index file, the page allocator and the buffer manager's pin counts. -/
structure BTState where
  L : Nat
  N : Nat
  pages : Nat → Pg
  nextPid : Nat
  pins : Nat → Int
  headerPageNum : Nat
  rootPageNum : Nat
  initialRootPageNum : Nat
  scanExecuting : Bool
  nextEntry : Nat
  currentPageNum : Nat
  lowValInt : Int
  highValInt : Int
  lowOp : Operator
  highOp : Operator

/-- Increment a pin count (`BufMgr::readPage` / `allocPage`). -/
def pinInc (p : Nat → Int) (pid : Nat) : Nat → Int :=
  fun q => if q = pid then p q + 1 else p q

/-- Decrement a pin count (`BufMgr::unPinPage`). -/
def pinDec (p : Nat → Int) (pid : Nat) : Nat → Int :=
  fun q => if q = pid then p q - 1 else p q

/-- `bufMgr->unPinPage(file, pid, _)`; the dirty bit is irrelevant here. -/
def unPinPage (s : BTState) (pid : Nat) : BTState :=
  { s with pins := pinDec s.pins pid }

/-- Overwrite a page's contents (a store through the pinned page pointer). -/
def writePage (s : BTState) (pid : Nat) (p : Pg) : BTState :=
  { s with pages := upd s.pages pid p }

/-- `bufMgr->allocPage`: returns the fresh (zero-filled, pinned) page id. -/
def allocPage (s : BTState) : BTState × Nat :=
  ({ s with nextPid := s.nextPid + 1,
            pins := pinInc s.pins s.nextPid,
            pages := upd s.pages s.nextPid Pg.free }, s.nextPid)

/-!
### `BTreeIndex::updateRootNode` (btree.cpp lines 403-429)
-/

/-- Root replacement: allocate a new internal root over `firstPage` and the
promoted sibling, update the meta page and the in-memory root. -/
def updateRootNodeSt (s : BTState) (firstPage : Nat) (newEntry : PageKeyPair) : BTState :=
  let a := allocPage s
  let s1 := a.1
  let newPid := a.2
  let lvl : Int := if s1.initialRootPageNum = s1.rootPageNum then 1 else 0
  let newRoot : NonLeafNodeInt :=
    { level := lvl,
      keyArray := upd zeroNonLeaf.keyArray 0 newEntry.key,
      pageNoArray := upd (upd zeroNonLeaf.pageNoArray 0 firstPage) 1 newEntry.pageNo }
  let s2 := writePage s1 newPid (Pg.intern newRoot)
  let s3 := { s2 with pins := pinInc s2.pins s2.headerPageNum }
  let m := (s3.pages s3.headerPageNum).asMeta
  let s4 := writePage s3 s3.headerPageNum (Pg.meta { m with rootPageNo := newPid })
  let s5 := { s4 with rootPageNum := newPid }
  let s6 := unPinPage s5 s5.headerPageNum
  unPinPage s6 newPid

/-!
### `BTreeIndex::splitLeafNode` / `splitNonLeafNode`, state level
-/

/-- State-level leaf split: allocate the sibling, write both leaves, unpin
both, and replace the root when the split page was the root. -/
def splitLeafNodeSt (s : BTState) (leafPid : Nat) (dataEntry : RIDKeyPair) :
    BTState × PageKeyPair :=
  let a := allocPage s
  let s1 := a.1
  let newPid := a.2
  let r := splitLeafNode s1.L ((s1.pages leafPid).asLeaf) newPid dataEntry
  let s2 := writePage s1 leafPid (Pg.leaf r.1)
  let s3 := writePage s2 newPid (Pg.leaf r.2.1)
  let s4 := unPinPage s3 leafPid
  let s5 := unPinPage s4 newPid
  if leafPid = s5.rootPageNum then (updateRootNodeSt s5 leafPid r.2.2, r.2.2)
  else (s5, r.2.2)

/-- State-level internal split. -/
def splitNonLeafNodeSt (s : BTState) (oldPid : Nat) (entry : PageKeyPair) :
    BTState × PageKeyPair :=
  let a := allocPage s
  let s1 := a.1
  let newPid := a.2
  let r := splitNonLeafNode s1.N ((s1.pages oldPid).asIntern) newPid entry
  let s2 := writePage s1 oldPid (Pg.intern r.1)
  let s3 := writePage s2 newPid (Pg.intern r.2.1)
  let s4 := unPinPage s3 oldPid
  let s5 := unPinPage s4 newPid
  if oldPid = s5.rootPageNum then (updateRootNodeSt s5 oldPid r.2.2, r.2.2)
  else (s5, r.2.2)

/-!
### `BTreeIndex::insert` (btree.cpp lines 186-232) and `insertEntry`
-/

/-- The recursive `insert`.  The recursion follows child pointers, so a fuel
parameter bounds it; `insertEntry` passes `nextPid` fuel, which exceeds the
tree height in every state reachable from the constructor.  Returns the
post-state and the promoted entry (`newchildEntry`), `none` if no split
reached this level. -/
def insertRec : Nat → BTState → Nat → Bool → RIDKeyPair → BTState × Option PageKeyPair
  | 0, s, _, _, _ => (s, none)
  | fuel + 1, s, curPid, isLeafNode, dataEntry =>
    if isLeafNode then
      let leaf := (s.pages curPid).asLeaf
      if (leaf.ridArray (s.L - 1)).page_number = 0 then
        let s1 := writePage s curPid (Pg.leaf (insertLeafNode s.L leaf dataEntry))
        (unPinPage s1 curPid, none)
      else
        let r := splitLeafNodeSt s curPid dataEntry
        (r.1, some r.2)
    else
      let curNode := (s.pages curPid).asIntern
      let nextPid := findNextNonLeafNode s.N curNode dataEntry.key
      let s1 := { s with pins := pinInc s.pins nextPid }
      let isLeaf2 : Bool := curNode.level = 1
      let r := insertRec fuel s1 nextPid isLeaf2 dataEntry
      let s2 := r.1
      match r.2 with
      | none => (unPinPage s2 curPid, none)
      | some newEntry =>
        let curNode2 := (s2.pages curPid).asIntern
        if curNode2.pageNoArray s2.N = 0 then
          let s3 := writePage s2 curPid (Pg.intern (insertNonLeafNode s2.N curNode2 newEntry))
          (unPinPage s3 curPid, none)
        else
          let rr := splitNonLeafNodeSt s2 curPid newEntry
          (rr.1, some rr.2)

/-- `insertEntry`: pin the root and run the recursive insert, with
`isLeafNode = (initialRootPageNum == rootPageNum)` at the top. -/
def insertEntryOp (s : BTState) (key : Int) (rid : RecordId) : BTState :=
  let s1 := { s with pins := pinInc s.pins s.rootPageNum }
  (insertRec s1.nextPid s1 s1.rootPageNum
    (decide (s1.initialRootPageNum = s1.rootPageNum)) ⟨rid, key⟩).1

/-!
### `BTreeIndex::endScan` (btree.cpp lines 573-580)
-/

/-- `endScan`: fail if no scan is active, else unpin the current page and
clear the flag. -/
def endScanOp (s : BTState) : BTState × Option Err :=
  if s.scanExecuting then
    ({ unPinPage s s.currentPageNum with scanExecuting := false }, none)
  else
    (s, some Err.scanNotInit)

/-!
### `BTreeIndex::startScan` (btree.cpp lines 442-529)

The source's leaf loop contains `noVal == true;` — a comparison, not an
assignment — so `noVal` remains `false` forever and both the `if (noVal)
break` and the `noVal`-disjunct of the sibling-hop condition are dead.  The
embedding therefore omits `noVal` and keeps exactly the live control flow:
the loop examines every slot of the leaf (present or not) and hops to the
right sibling only at slot `leafOccupancy - 1`.
-/

/-- Result of the inner `for` over a leaf's slots in `startScan`: either the
call finishes (successfully positioned or throwing), or the cursor hopped to
the right sibling and the outer `while` re-enters. -/
inductive InnerRes where
  | done (s : BTState) (e : Option Err)
  | hop (s : BTState)

/-- The inner `for (i = 0; i < leafOccupancy; i++)` of `startScan`, with
`i = L - rem`. -/
def startScanInner (s : BTState) (curNode : LeafNodeInt) (L : Nat) : Nat → InnerRes
  | 0 => InnerRes.hop s
  | rem + 1 =>
    let i := L - (rem + 1)
    let keyValue := curNode.keyArray i
    if checkKey s.lowValInt s.lowOp s.highValInt s.highOp keyValue then
      InnerRes.done { s with nextEntry := i, scanExecuting := true } none
    else if s.highOp = Operator.LTE ∧ ¬ (keyValue ≤ s.highValInt) then
      InnerRes.done (unPinPage s s.currentPageNum) (some Err.noSuchKeyFound)
    else if s.highOp = Operator.LT ∧ ¬ (keyValue < s.highValInt) then
      InnerRes.done (unPinPage s s.currentPageNum) (some Err.noSuchKeyFound)
    else
      if rem = 0 then
        let s1 := unPinPage s s.currentPageNum
        if curNode.rightSibPageNo = 0 then
          InnerRes.done s1 (some Err.noSuchKeyFound)
        else
          let s2 := { s1 with currentPageNum := curNode.rightSibPageNo,
                              pins := pinInc s1.pins curNode.rightSibPageNo }
          InnerRes.hop s2
      else startScanInner s curNode L rem

/-- The outer `while (!foundSmallest)` of `startScan`, walking the leaf
chain. -/
def startScanOuter : Nat → BTState → BTState × Option Err
  | 0, s => (s, none)
  | fuel + 1, s =>
    let curNode := (s.pages s.currentPageNum).asLeaf
    if (curNode.ridArray 0).page_number = 0 then
      (unPinPage s s.currentPageNum, some Err.noSuchKeyFound)
    else
      match startScanInner s curNode s.L s.L with
      | InnerRes.done s' e => (s', e)
      | InnerRes.hop s' => startScanOuter fuel s'

/-- The internal-level descent of `startScan` (the `while (!nextIsLeaf)`). -/
def descendLoop : Nat → BTState → BTState
  | 0, s => s
  | fuel + 1, s =>
    let cur := (s.pages s.currentPageNum).asIntern
    let nextIsLeaf : Bool := cur.level = 1
    let nextPid := findNextNonLeafNode s.N cur s.lowValInt
    let s1 := unPinPage s s.currentPageNum
    let s2 := { s1 with currentPageNum := nextPid, pins := pinInc s1.pins nextPid }
    if nextIsLeaf then s2 else descendLoop fuel s2

/-- `startScan`: end any active scan, validate operators and range, descend
to the leftmost candidate leaf and search the leaf chain for the first
qualifying slot. -/
def startScanOp (s : BTState) (lowVal : Int) (lowOpParm : Operator)
    (highVal : Int) (highOpParm : Operator) : BTState × Option Err :=
  let s0 := if s.scanExecuting then (endScanOp s).1 else s
  if (lowOpParm ≠ Operator.GT ∧ lowOpParm ≠ Operator.GTE) ∨
     (highOpParm ≠ Operator.LT ∧ highOpParm ≠ Operator.LTE) then
    (s0, some Err.badOpcodes)
  else
    let s1 := { s0 with lowValInt := lowVal, highValInt := highVal,
                        lowOp := lowOpParm, highOp := highOpParm }
    if s1.lowValInt > s1.highValInt then
      (s1, some Err.badScanrange)
    else
      let s2 := { s1 with currentPageNum := s1.rootPageNum,
                          pins := pinInc s1.pins s1.rootPageNum }
      let s3 := if s2.initialRootPageNum ≠ s2.rootPageNum
                then descendLoop s2.nextPid s2 else s2
      startScanOuter s3.nextPid s3

/-!
### `BTreeIndex::scanNext` (btree.cpp lines 539-563)
-/

/-- The tail of `scanNext` after the possible sibling hop: check the current
key and emit or fail `IndexScanCompleted` (leaving the page pinned). -/
def scanNextEmit (s : BTState) : BTState × Except Err RecordId :=
  let curNode := (s.pages s.currentPageNum).asLeaf
  let keyValue := curNode.keyArray s.nextEntry
  if checkKey s.lowValInt s.lowOp s.highValInt s.highOp keyValue then
    ({ s with nextEntry := s.nextEntry + 1 }, Except.ok (curNode.ridArray s.nextEntry))
  else
    (s, Except.error Err.indexScanCompleted)

/-- `scanNext`: fail if no scan is active; if the current leaf is exhausted,
unpin it and either fail `IndexScanCompleted` (no right sibling — note the
page is already unpinned and `scanExecuting` remains `true`) or move to the
sibling; then emit the current entry if it qualifies. -/
def scanNextOp (s : BTState) : BTState × Except Err RecordId :=
  if s.scanExecuting then
    let curNode := (s.pages s.currentPageNum).asLeaf
    if s.nextEntry = s.L ∨ (curNode.ridArray s.nextEntry).page_number = 0 then
      let s1 := unPinPage s s.currentPageNum
      if curNode.rightSibPageNo = 0 then
        (s1, Except.error Err.indexScanCompleted)
      else
        let s2 := { s1 with currentPageNum := curNode.rightSibPageNo,
                            pins := pinInc s1.pins curNode.rightSibPageNo,
                            nextEntry := 0 }
        scanNextEmit s2
    else scanNextEmit s
  else
    (s, Except.error Err.scanNotInit)

/-!
### The constructor (btree.cpp lines 36-121)
-/

/-- The create path of the constructor: build the header and the empty root
leaf, then bulk-insert every `(key, rid)` pair of the base relation.  Page
ids start at 1 as in BadgerDB's `BlobFile`. -/
def btreeCreate (L N : Nat) (relationName : String) (attrByteOffset : Int)
    (attrType : Int) (relation : List (Int × RecordId)) : BTState :=
  let s0 : BTState :=
    { L := L, N := N, pages := fun _ => Pg.free, nextPid := 1,
      pins := fun _ => 0, headerPageNum := 0, rootPageNum := 0,
      initialRootPageNum := 0, scanExecuting := false, nextEntry := 0,
      currentPageNum := 0, lowValInt := 0, highValInt := 0,
      lowOp := Operator.LT, highOp := Operator.LT }
  let a1 := allocPage s0
  let s1 := { a1.1 with headerPageNum := a1.2 }
  let a2 := allocPage s1
  let s2 := { a2.1 with rootPageNum := a2.2 }
  let s3 := writePage s2 s2.headerPageNum
    (Pg.meta ⟨relationName, attrByteOffset, attrType, s2.rootPageNum⟩)
  let s4 := { s3 with initialRootPageNum := s3.rootPageNum }
  let s5 := writePage s4 s4.rootPageNum (Pg.leaf zeroLeaf)
  let s6 := unPinPage s5 s5.headerPageNum
  let s7 := unPinPage s6 s6.rootPageNum
  relation.foldl (fun st e => insertEntryOp st e.1 e.2) s7

/-- The open path of the constructor for an existing index file: pin the
header, adopt its root page number, and fail `BadIndexInfo` when the stored
meta data disagrees with the constructor arguments.  Note that on the
failure path the header page is NOT unpinned before the throw (lines
67-71 precede the `unPinPage` at line 73), and `initialRootPageNum` is never
assigned on this path. -/
def btreeOpenExisting (s : BTState) (relationName : String) (attrByteOffset : Int)
    (attrType : Int) : BTState × Option Err :=
  let s1 := { s with pins := pinInc s.pins s.headerPageNum }
  let m := (s1.pages s1.headerPageNum).asMeta
  let s2 := { s1 with rootPageNum := m.rootPageNo }
  if relationName ≠ m.relationName ∨ attrType ≠ m.attrType ∨
     attrByteOffset ≠ m.attrByteOffset then
    (s2, some Err.badIndexInfo)
  else
    (unPinPage s2 s2.headerPageNum, none)

/-!
### Reachable states
-/

/-- A public operation applied to the index. -/
inductive BTOp where
  | insert (key : Int) (rid : RecordId)
  | scanStart (low : Int) (lowO : Operator) (high : Int) (highO : Operator)
  | scanStep
  | scanEnd

/-- Apply one public operation (the post-exception state is kept, as the C++
object survives a throw). -/
def applyOp (s : BTState) (op : BTOp) : BTState :=
  match op with
  | BTOp.insert k r => insertEntryOp s k r
  | BTOp.scanStart lo lo2 hi hi2 => (startScanOp s lo lo2 hi hi2).1
  | BTOp.scanStep => (scanNextOp s).1
  | BTOp.scanEnd => (endScanOp s).1

/-- Run a list of public operations. -/
def runOps (s : BTState) (ops : List BTOp) : BTState := ops.foldl applyOp s

/-!
## Claim C5: node well-formedness over reachable states
-/

/-- A leaf is well-formed: its present entries form a contiguous prefix of
some length `n` (no holes) and the keys of that prefix are sorted
ascending. -/
def LeafWF (L : Nat) (l : LeafNodeInt) : Prop :=
  ∃ n, n ≤ L ∧
    (∀ i, i < n → (l.ridArray i).page_number ≠ 0) ∧
    (∀ i, n ≤ i → i < L → (l.ridArray i).page_number = 0) ∧
    (∀ i, i + 1 < n → l.keyArray i ≤ l.keyArray (i + 1))

theorem zeroLeaf_wf (L : Nat) : LeafWF L zeroLeaf :=
  ⟨0, by omega, by omega, fun i h1 h2 => rfl, by omega⟩

/-- A leaf write of `insertLeafNode` into a non-full well-formed leaf is
well-formed. -/
theorem insertLeafNode_wf (L : Nat) (l : LeafNodeInt) (entry : RIDKeyPair)
    (hL : 1 ≤ L) (hwf : LeafWF L l) (hrid : entry.rid.page_number ≠ 0)
    (hnotfull : (l.ridArray (L - 1)).page_number = 0) :
    LeafWF L (insertLeafNode L l entry) := by
  obtain ⟨n, hn, hpres, habs, hsorted⟩ := hwf
  have hnL : n < L := by
    rcases Nat.lt_or_ge n L with h | h
    · exact h
    · exfalso
      have hLn : L - 1 < n := by omega
      exact hpres (L - 1) hLn hnotfull
  obtain ⟨p, hpn, _, _, _, _, _, _, hpres', habs', hsorted'⟩ :=
    insertLeafNode_spec L n l entry hnL hpres habs hsorted hrid
  exact ⟨n + 1, by omega, hpres', habs', hsorted'⟩

/-- Both leaves produced by `splitLeafNode` on a full well-formed leaf are
well-formed. -/
theorem splitLeafNode_wf (L : Nat) (leaf : LeafNodeInt) (newPid : Nat)
    (entry : RIDKeyPair) (hL : 2 ≤ L) (hwf : LeafWF L leaf)
    (hrid : entry.rid.page_number ≠ 0)
    (hfull : (leaf.ridArray (L - 1)).page_number ≠ 0) :
    LeafWF L (splitLeafNode L leaf newPid entry).1 ∧
    LeafWF L (splitLeafNode L leaf newPid entry).2.1 := by
  obtain ⟨n, hn, hpres, habs, hsorted⟩ := hwf
  have hnL : n = L := by
    rcases Nat.lt_or_ge n L with h | h
    · exact absurd (habs (L - 1) (by omega) (by omega)) hfull
    · omega
  rw [hnL] at hpres hsorted
  -- the split point
  set mid := if L % 2 = 1 ∧ entry.key > leaf.keyArray (L / 2) then L / 2 + 1 else L / 2
    with hmid
  have hmid1 : 1 ≤ mid := by rw [hmid]; split <;> omega
  have hmidL : mid < L := by rw [hmid]; split <;> omega
  obtain ⟨⟨mo1, mo2, mo3, mo4⟩, ⟨mn1, mn2, mn3, mn4⟩⟩ :=
    leafMoveLoop_spec mid L (L - mid) leaf zeroLeaf (le_refl _) (by omega)
  have hLk : L - (L - mid) = mid := by omega
  rw [hLk] at mo1 mo2 mn1 mn2
  have hunf : splitLeafNode L leaf newPid entry =
      (let old1 := (leafMoveLoop mid L leaf zeroLeaf (L - mid)).1
       let new1 := (leafMoveLoop mid L leaf zeroLeaf (L - mid)).2
       let oldNew :=
         if entry.key > old1.keyArray (mid - 1) then
           (old1, insertLeafNode L new1 entry)
         else
           (insertLeafNode L old1 entry, new1)
       ({ oldNew.1 with rightSibPageNo := newPid },
        { oldNew.2 with rightSibPageNo := oldNew.1.rightSibPageNo },
        (⟨newPid, ({ oldNew.2 with rightSibPageNo := oldNew.1.rightSibPageNo } : LeafNodeInt).keyArray 0⟩ : PageKeyPair))) := by
    simp only [splitLeafNode]
  set old1 := (leafMoveLoop mid L leaf zeroLeaf (L - mid)).1 with hold1
  set new1 := (leafMoveLoop mid L leaf zeroLeaf (L - mid)).2 with hnew1
  have hwfold : LeafWF L old1 :=
    ⟨mid, by omega,
     fun i hi => by rw [(mo1 i hi).2]; exact hpres i (by omega),
     fun i hi1 hi2 => by rw [(mo2 i hi1 hi2).2],
     fun i hi => by
       rw [(mo1 i (by omega)).1, (mo1 (i + 1) (by omega)).1]
       exact hsorted i (by omega)⟩
  have hwfnew : LeafWF L new1 := by
    refine ⟨L - mid, by omega, ?_, ?_, ?_⟩
    · intro i hi
      rw [(mn2 i (by omega) (by omega)).2]
      exact hpres (i + mid) (by omega)
    · intro i hi1 hi2
      rcases Nat.lt_or_ge (i + mid) L with h | h
      · exact ((by omega : False)).elim
      · rw [(mn3 i h).2]; rfl
    · intro i hi
      rw [(mn2 i (by omega) (by omega)).1, (mn2 (i + 1) (by omega) (by omega)).1]
      have h := hsorted (i + mid) (by omega)
      have he : i + mid + 1 = i + 1 + mid := by omega
      rwa [he] at h
  have hfree : ∀ (x : LeafNodeInt) (p : Nat), LeafWF L x →
      LeafWF L ({ x with rightSibPageNo := p }) := by
    intro x p ⟨m, h1, h2, h3, h4⟩
    exact ⟨m, h1, h2, h3, h4⟩
  rw [hunf]
  by_cases hcase : entry.key > old1.keyArray (mid - 1)
  · simp only [if_pos hcase]
    have hnf : (new1.ridArray (L - 1)).page_number = 0 := by
      rcases Nat.lt_or_ge (L - 1 + mid) L with h | h
      · exact ((by omega : False)).elim
      · rw [(mn3 (L - 1) h).2]; rfl
    exact ⟨hfree _ _ hwfold, hfree _ _ (insertLeafNode_wf L new1 entry (by omega) hwfnew hrid hnf)⟩
  · simp only [if_neg hcase]
    have hnf : (old1.ridArray (L - 1)).page_number = 0 := by
      rw [(mo2 (L - 1) (by omega) (by omega)).2]
    exact ⟨hfree _ _ (insertLeafNode_wf L old1 entry (by omega) hwfold hrid hnf), hfree _ _ hwfnew⟩

/-- A leaf whose rid slots are all empty is well-formed (with zero entries). -/
theorem leafWF_of_allzero (L : Nat) (l : LeafNodeInt)
    (hz : ∀ i, (l.ridArray i).page_number = 0) : LeafWF L l := by
  refine ⟨0, Nat.zero_le _, ?_, fun i _ _ => hz i, ?_⟩
  · intro i h1 _
    exact ((by omega : False)).elim
  · intro i h
    exact ((by omega : False)).elim

/-- The move loop keeps both leaves all-empty when both start all-empty. -/
theorem leafMoveLoop_allzero (mid L : Nat) : ∀ (k : Nat) (old new : LeafNodeInt),
    (∀ i, (old.ridArray i).page_number = 0) →
    (∀ i, (new.ridArray i).page_number = 0) →
    (∀ i, (((leafMoveLoop mid L old new k).1.ridArray i)).page_number = 0) ∧
    (∀ i, (((leafMoveLoop mid L old new k).2.ridArray i)).page_number = 0) := by
  intro k
  induction k with
  | zero => intro old new h1 h2; exact ⟨h1, h2⟩
  | succ k ih =>
    intro old new h1 h2
    simp only [leafMoveLoop]
    apply ih
    · intro i
      show (upd old.ridArray (L - (k + 1))
        ⟨0, (old.ridArray (L - (k + 1))).slot_number⟩ i).page_number = 0
      by_cases hi : i = L - (k + 1)
      · rw [hi, upd_same]
      · rw [upd_ne _ _ _ _ hi]; exact h1 i
    · intro i
      show (upd new.ridArray (L - (k + 1) - mid)
        (old.ridArray (L - (k + 1))) i).page_number = 0
      by_cases hi : i = L - (k + 1) - mid
      · rw [hi, upd_same]; exact h1 _
      · rw [upd_ne _ _ _ _ hi]; exact h2 i

/-- Splitting an all-empty leaf also yields two well-formed halves (this case
arises in the model when the pinned page id coincides with the page the buffer
manager just allocated, so the split reads a freshly zero-filled frame). -/
theorem splitLeafNode_zero_wf (L : Nat) (leaf : LeafNodeInt) (newPid : Nat)
    (entry : RIDKeyPair) (hL : 1 ≤ L) (hrid : entry.rid.page_number ≠ 0)
    (hz : ∀ i, (leaf.ridArray i).page_number = 0) :
    LeafWF L (splitLeafNode L leaf newPid entry).1 ∧
    LeafWF L (splitLeafNode L leaf newPid entry).2.1 := by
  set mid := if L % 2 = 1 ∧ entry.key > leaf.keyArray (L / 2) then L / 2 + 1 else L / 2
    with hmid
  obtain ⟨hz1, hz2⟩ := leafMoveLoop_allzero mid L (L - mid) leaf zeroLeaf hz (fun i => rfl)
  have hunf : splitLeafNode L leaf newPid entry =
      (let old1 := (leafMoveLoop mid L leaf zeroLeaf (L - mid)).1
       let new1 := (leafMoveLoop mid L leaf zeroLeaf (L - mid)).2
       let oldNew :=
         if entry.key > old1.keyArray (mid - 1) then
           (old1, insertLeafNode L new1 entry)
         else
           (insertLeafNode L old1 entry, new1)
       ({ oldNew.1 with rightSibPageNo := newPid },
        { oldNew.2 with rightSibPageNo := oldNew.1.rightSibPageNo },
        (⟨newPid, ({ oldNew.2 with rightSibPageNo := oldNew.1.rightSibPageNo } : LeafNodeInt).keyArray 0⟩ : PageKeyPair))) := by
    simp only [splitLeafNode]
  set old1 := (leafMoveLoop mid L leaf zeroLeaf (L - mid)).1 with hold1
  set new1 := (leafMoveLoop mid L leaf zeroLeaf (L - mid)).2 with hnew1
  have hwfold : LeafWF L old1 := leafWF_of_allzero L old1 hz1
  have hwfnew : LeafWF L new1 := leafWF_of_allzero L new1 hz2
  have hfree : ∀ (x : LeafNodeInt) (p : Nat), LeafWF L x →
      LeafWF L ({ x with rightSibPageNo := p }) := by
    intro x p ⟨m, h1, h2, h3, h4⟩
    exact ⟨m, h1, h2, h3, h4⟩
  rw [hunf]
  by_cases hcase : entry.key > old1.keyArray (mid - 1)
  · simp only [if_pos hcase]
    exact ⟨hfree _ _ hwfold,
      hfree _ _ (insertLeafNode_wf L new1 entry hL hwfnew hrid (hz2 (L - 1)))⟩
  · simp only [if_neg hcase]
    exact ⟨hfree _ _ (insertLeafNode_wf L old1 entry hL hwfold hrid (hz1 (L - 1))), hfree _ _ hwfnew⟩

/-- All leaf pages of a state are well-formed. -/
def LeavesWF (s : BTState) : Prop :=
  ∀ pid l, s.pages pid = Pg.leaf l → LeafWF s.L l

/-- Analyzing one page write. -/
theorem upd_pg_leaf {f : Nat → Pg} {pid q : Nat} {p : Pg} {l : LeafNodeInt}
    (h : upd f pid p q = Pg.leaf l) :
    (q = pid ∧ p = Pg.leaf l) ∨ (q ≠ pid ∧ f q = Pg.leaf l) := by
  by_cases hq : q = pid
  · refine Or.inl ⟨hq, ?_⟩
    rw [← h, hq, upd_same]
  · refine Or.inr ⟨hq, ?_⟩
    rw [← h, upd_ne f pid q p hq]

/-- The page cast used on the leaf path is always well-formed in a state
whose leaves are well-formed (a non-leaf page casts to the zero leaf). -/
theorem asLeaf_wf (s : BTState) (h : LeavesWF s) (p : Nat) :
    LeafWF s.L ((s.pages p).asLeaf) := by
  cases hp : s.pages p with
  | leaf l => rw [Pg.asLeaf]; exact h p l hp
  | free => exact zeroLeaf_wf s.L
  | intern n => exact zeroLeaf_wf s.L
  | meta m => exact zeroLeaf_wf s.L

/-- Root replacement writes only an internal page and the meta page, so it
preserves leaf well-formedness (and the occupancy members). -/
theorem updateRootNodeSt_leaves (s : BTState) (fp : Nat) (e : PageKeyPair)
    (h : LeavesWF s) :
    LeavesWF (updateRootNodeSt s fp e) ∧ (updateRootNodeSt s fp e).L = s.L := by
  refine ⟨?_, rfl⟩
  intro pid l hpl
  simp only [updateRootNodeSt, allocPage, writePage, unPinPage] at hpl
  rcases upd_pg_leaf hpl with ⟨_, hcon⟩ | ⟨_, h2⟩
  · cases hcon
  rcases upd_pg_leaf h2 with ⟨_, hcon⟩ | ⟨_, h3⟩
  · cases hcon
  rcases upd_pg_leaf h3 with ⟨_, hcon⟩ | ⟨_, h4⟩
  · cases hcon
  exact h pid l h4

/-- State-level leaf split preserves leaf well-formedness when the split
page's leaf view was full before the call. -/
theorem splitLeafNodeSt_leaves (s : BTState) (leafPid : Nat) (entry : RIDKeyPair)
    (h : LeavesWF s) (hL : 2 ≤ s.L) (hrid : entry.rid.page_number ≠ 0)
    (hfull : (((s.pages leafPid).asLeaf).ridArray (s.L - 1)).page_number ≠ 0) :
    LeavesWF (splitLeafNodeSt s leafPid entry).1 ∧
    (splitLeafNodeSt s leafPid entry).1.L = s.L := by
  have hw : LeafWF s.L
        ((splitLeafNode s.L ((upd s.pages s.nextPid Pg.free leafPid).asLeaf) s.nextPid entry).1) ∧
      LeafWF s.L
        ((splitLeafNode s.L ((upd s.pages s.nextPid Pg.free leafPid).asLeaf) s.nextPid entry).2.1) := by
    by_cases halloc : leafPid = s.nextPid
    · rw [halloc, upd_same]
      exact splitLeafNode_zero_wf s.L (Pg.free.asLeaf) s.nextPid entry (by omega) hrid
        (fun i => rfl)
    · rw [upd_ne _ _ _ _ halloc]
      exact splitLeafNode_wf s.L ((s.pages leafPid).asLeaf) s.nextPid entry hL
        (asLeaf_wf s h leafPid) hrid hfull
  have hbase : ∀ (l1 l2 : LeafNodeInt), LeafWF s.L l1 → LeafWF s.L l2 →
      ∀ pid l, upd (upd (upd s.pages s.nextPid Pg.free) leafPid (Pg.leaf l1))
          s.nextPid (Pg.leaf l2) pid = Pg.leaf l → LeafWF s.L l := by
    intro l1 l2 hw1 hw2 pid l hpl
    rcases upd_pg_leaf hpl with ⟨_, hcon⟩ | ⟨_, h2⟩
    · cases hcon; exact hw2
    rcases upd_pg_leaf h2 with ⟨_, hcon⟩ | ⟨_, h3⟩
    · cases hcon; exact hw1
    rcases upd_pg_leaf h3 with ⟨_, hcon⟩ | ⟨_, h4⟩
    · cases hcon
    exact h pid l h4
  simp only [splitLeafNodeSt, allocPage, writePage, unPinPage]
  by_cases hroot : leafPid = s.rootPageNum
  · rw [if_pos hroot]
    refine (updateRootNodeSt_leaves _ leafPid _ ?_)
    intro pid l hpl
    exact hbase _ _ hw.1 hw.2 pid l hpl
  · rw [if_neg hroot]
    exact ⟨fun pid l hpl => hbase _ _ hw.1 hw.2 pid l hpl, rfl⟩

/-- State-level internal split writes only internal pages (plus a possible
root replacement), so it preserves leaf well-formedness. -/
theorem splitNonLeafNodeSt_leaves (s : BTState) (oldPid : Nat) (entry : PageKeyPair)
    (h : LeavesWF s) :
    LeavesWF (splitNonLeafNodeSt s oldPid entry).1 ∧
    (splitNonLeafNodeSt s oldPid entry).1.L = s.L := by
  have hbase : ∀ (n1 n2 : NonLeafNodeInt) (pid : Nat) (l : LeafNodeInt),
      upd (upd (upd s.pages s.nextPid Pg.free) oldPid (Pg.intern n1))
          s.nextPid (Pg.intern n2) pid = Pg.leaf l → LeafWF s.L l := by
    intro n1 n2 pid l hpl
    rcases upd_pg_leaf hpl with ⟨_, hcon⟩ | ⟨_, h2⟩
    · cases hcon
    rcases upd_pg_leaf h2 with ⟨_, hcon⟩ | ⟨_, h3⟩
    · cases hcon
    rcases upd_pg_leaf h3 with ⟨_, hcon⟩ | ⟨_, h4⟩
    · cases hcon
    exact h pid l h4
  simp only [splitNonLeafNodeSt, allocPage, writePage, unPinPage]
  by_cases hroot : oldPid = s.rootPageNum
  · rw [if_pos hroot]
    refine (updateRootNodeSt_leaves _ oldPid _ ?_)
    intro pid l hpl
    exact hbase _ _ pid l hpl
  · rw [if_neg hroot]
    exact ⟨fun pid l hpl => hbase _ _ pid l hpl, rfl⟩

/-- The recursive insert preserves leaf well-formedness. -/
theorem insertRec_leaves : ∀ (fuel : Nat) (s : BTState) (curPid : Nat)
    (isLeafNode : Bool) (dataEntry : RIDKeyPair),
    LeavesWF s → 2 ≤ s.L → dataEntry.rid.page_number ≠ 0 →
    LeavesWF (insertRec fuel s curPid isLeafNode dataEntry).1 ∧
    (insertRec fuel s curPid isLeafNode dataEntry).1.L = s.L := by
  intro fuel
  induction fuel with
  | zero => intro s curPid isLeafNode dataEntry h hL hr; exact ⟨h, rfl⟩
  | succ fuel ih =>
    intro s curPid isLeafNode dataEntry h hL hr
    simp only [insertRec]
    by_cases hleaf : isLeafNode = true
    · rw [if_pos hleaf]
      by_cases hnf : (((s.pages curPid).asLeaf).ridArray (s.L - 1)).page_number = 0
      · rw [if_pos hnf]
        refine ⟨?_, rfl⟩
        intro pid l hpl
        simp only [writePage, unPinPage] at hpl
        rcases upd_pg_leaf hpl with ⟨_, heq⟩ | ⟨_, h2⟩
        · cases heq
          exact insertLeafNode_wf s.L _ dataEntry (by omega) (asLeaf_wf s h curPid) hr hnf
        · exact h pid l h2
      · rw [if_neg hnf]
        exact splitLeafNodeSt_leaves s curPid dataEntry h hL hr hnf
    · rw [if_neg hleaf]
      set nid := findNextNonLeafNode s.N ((s.pages curPid).asIntern) dataEntry.key with hnid
      set s1 := { s with pins := pinInc s.pins nid } with hs1
      have hs1wf : LeavesWF s1 := fun pid l hpl => h pid l hpl
      obtain ⟨hrec, hrecL⟩ := ih s1 nid
        (decide (((s.pages curPid).asIntern).level = 1)) dataEntry hs1wf hL hr
      set s2 := (insertRec fuel s1 nid
          (decide (((s.pages curPid).asIntern).level = 1)) dataEntry).1 with hs2
      split
      · exact ⟨fun pid l hpl => hrec pid l hpl, hrecL.trans rfl⟩
      · rename_i newEntry hres
        split
        · refine ⟨?_, hrecL.trans rfl⟩
          intro pid l hpl
          simp only [writePage, unPinPage] at hpl
          rcases upd_pg_leaf hpl with ⟨_, hcon⟩ | ⟨_, h2⟩
          · cases hcon
          · exact hrec pid l h2
        · obtain ⟨ha, hb⟩ := splitNonLeafNodeSt_leaves s2 curPid newEntry hrec
          exact ⟨ha, hb.trans (hrecL.trans rfl)⟩

/-!
### Frame of the scan operations

The scan operations never write pages and never change the tree-shape
members; they only touch pins and the scan cursor. -/

/-- The members untouched by every scan operation. -/
def ScanFrameEq (s t : BTState) : Prop :=
  t.L = s.L ∧ t.N = s.N ∧ t.pages = s.pages ∧ t.nextPid = s.nextPid ∧
  t.headerPageNum = s.headerPageNum ∧ t.rootPageNum = s.rootPageNum ∧
  t.initialRootPageNum = s.initialRootPageNum

theorem scanFrameEq_refl (s : BTState) : ScanFrameEq s s :=
  ⟨rfl, rfl, rfl, rfl, rfl, rfl, rfl⟩

theorem scanFrameEq_trans {s t u : BTState}
    (h1 : ScanFrameEq s t) (h2 : ScanFrameEq t u) : ScanFrameEq s u := by
  obtain ⟨a1, a2, a3, a4, a5, a6, a7⟩ := h1
  obtain ⟨b1, b2, b3, b4, b5, b6, b7⟩ := h2
  exact ⟨b1.trans a1, b2.trans a2, b3.trans a3, b4.trans a4,
         b5.trans a5, b6.trans a6, b7.trans a7⟩

theorem endScanOp_frame (s : BTState) : ScanFrameEq s (endScanOp s).1 := by
  simp only [endScanOp]
  split
  · exact ⟨rfl, rfl, rfl, rfl, rfl, rfl, rfl⟩
  · exact scanFrameEq_refl s

theorem startScanInner_frame (s : BTState) (curNode : LeafNodeInt) (L : Nat) :
    ∀ rem,
    (∀ t e, startScanInner s curNode L rem = InnerRes.done t e → ScanFrameEq s t) ∧
    (∀ t, startScanInner s curNode L rem = InnerRes.hop t → ScanFrameEq s t) := by
  intro rem
  induction rem with
  | zero =>
    constructor
    · intro t e h
      simp only [startScanInner] at h
      exact InnerRes.noConfusion h
    · intro t h
      simp only [startScanInner] at h
      injection h with h
      subst h
      exact scanFrameEq_refl s
  | succ rem ih =>
    constructor
    · intro t e h
      simp only [startScanInner] at h
      split at h
      · cases h
        exact ⟨rfl, rfl, rfl, rfl, rfl, rfl, rfl⟩
      split at h
      · cases h
        exact ⟨rfl, rfl, rfl, rfl, rfl, rfl, rfl⟩
      split at h
      · cases h
        exact ⟨rfl, rfl, rfl, rfl, rfl, rfl, rfl⟩
      split at h
      · split at h
        · cases h
          exact ⟨rfl, rfl, rfl, rfl, rfl, rfl, rfl⟩
        · cases h
      · exact ih.1 t e h
    · intro t h
      simp only [startScanInner] at h
      split at h
      · cases h
      split at h
      · cases h
      split at h
      · cases h
      split at h
      · split at h
        · cases h
        · cases h
          exact ⟨rfl, rfl, rfl, rfl, rfl, rfl, rfl⟩
      · exact ih.2 t h

theorem descendLoop_frame : ∀ (fuel : Nat) (s : BTState),
    ScanFrameEq s (descendLoop fuel s) := by
  intro fuel
  induction fuel with
  | zero => intro s; exact scanFrameEq_refl s
  | succ fuel ih =>
    intro s
    simp only [descendLoop]
    split
    · exact ⟨rfl, rfl, rfl, rfl, rfl, rfl, rfl⟩
    · exact scanFrameEq_trans (⟨rfl, rfl, rfl, rfl, rfl, rfl, rfl⟩ :
        ScanFrameEq s _) (ih _)

theorem startScanOuter_frame : ∀ (fuel : Nat) (s : BTState),
    ScanFrameEq s (startScanOuter fuel s).1 := by
  intro fuel
  induction fuel with
  | zero => intro s; exact scanFrameEq_refl s
  | succ fuel ih =>
    intro s
    simp only [startScanOuter]
    split
    · exact ⟨rfl, rfl, rfl, rfl, rfl, rfl, rfl⟩
    · split
      · rename_i t e heq
        exact (startScanInner_frame s _ s.L s.L).1 t e heq
      · rename_i t heq
        exact scanFrameEq_trans ((startScanInner_frame s _ s.L s.L).2 t heq) (ih t)

theorem startScanOp_frame (s : BTState) (lo : Int) (lo2 : Operator)
    (hi : Int) (hi2 : Operator) :
    ScanFrameEq s (startScanOp s lo lo2 hi hi2).1 := by
  simp only [startScanOp]
  set s0 := if s.scanExecuting then (endScanOp s).1 else s with hs0
  have h0 : ScanFrameEq s s0 := by
    rw [hs0]
    split
    · exact endScanOp_frame s
    · exact scanFrameEq_refl s
  split
  · exact h0
  · split
    · exact scanFrameEq_trans h0 ⟨rfl, rfl, rfl, rfl, rfl, rfl, rfl⟩
    · refine scanFrameEq_trans ?_ (startScanOuter_frame _ _)
      split
      · refine scanFrameEq_trans ?_ (descendLoop_frame _ _)
        exact scanFrameEq_trans h0 ⟨rfl, rfl, rfl, rfl, rfl, rfl, rfl⟩
      · exact scanFrameEq_trans h0 ⟨rfl, rfl, rfl, rfl, rfl, rfl, rfl⟩

theorem scanNextEmit_frame (s : BTState) : ScanFrameEq s (scanNextEmit s).1 := by
  simp only [scanNextEmit]
  split
  · exact ⟨rfl, rfl, rfl, rfl, rfl, rfl, rfl⟩
  · exact scanFrameEq_refl s

theorem scanNextOp_frame (s : BTState) : ScanFrameEq s (scanNextOp s).1 := by
  simp only [scanNextOp]
  split
  · split
    · split
      · exact ⟨rfl, rfl, rfl, rfl, rfl, rfl, rfl⟩
      · refine scanFrameEq_trans ?_ (scanNextEmit_frame _)
        exact ⟨rfl, rfl, rfl, rfl, rfl, rfl, rfl⟩
    · exact scanNextEmit_frame s
  · exact scanFrameEq_refl s

/-!
### Lifting leaf well-formedness through the public operations
-/

/-- `insertEntry` preserves leaf well-formedness. -/
theorem insertEntryOp_leaves (s : BTState) (k : Int) (r : RecordId)
    (h : LeavesWF s) (hL : 2 ≤ s.L) (hr : r.page_number ≠ 0) :
    LeavesWF (insertEntryOp s k r) ∧ (insertEntryOp s k r).L = s.L := by
  simp only [insertEntryOp]
  obtain ⟨h1, h2⟩ := insertRec_leaves s.nextPid
    ({ s with pins := pinInc s.pins s.rootPageNum }) s.rootPageNum
    (decide (s.initialRootPageNum = s.rootPageNum)) ⟨r, k⟩
    (fun pid l hpl => h pid l hpl) hL hr
  exact ⟨fun pid l hpl => h1 pid l hpl, h2⟩

/-- The validity condition on an operation's input that the well-formedness
invariant needs: an inserted record id must have a non-zero page number (a
zero page number is the implementation's emptiness marker). -/
def opOk : BTOp → Prop
  | BTOp.insert _ r => r.page_number ≠ 0
  | _ => True

/-- Every public operation preserves leaf well-formedness. -/
theorem applyOp_leaves (s : BTState) (op : BTOp)
    (h : LeavesWF s) (hL : 2 ≤ s.L) (hop : opOk op) :
    LeavesWF (applyOp s op) ∧ (applyOp s op).L = s.L := by
  cases op with
  | insert k r => exact insertEntryOp_leaves s k r h hL hop
  | scanStart lo lo2 hi hi2 =>
    obtain ⟨hLe, _, hp, _, _, _, _⟩ := startScanOp_frame s lo lo2 hi hi2
    refine ⟨?_, hLe⟩
    intro pid l hpl
    rw [show (applyOp s (BTOp.scanStart lo lo2 hi hi2)).pages = s.pages from hp] at hpl
    rw [show (applyOp s (BTOp.scanStart lo lo2 hi hi2)).L = s.L from hLe]
    exact h pid l hpl
  | scanStep =>
    obtain ⟨hLe, _, hp, _, _, _, _⟩ := scanNextOp_frame s
    refine ⟨?_, hLe⟩
    intro pid l hpl
    rw [show (applyOp s BTOp.scanStep).pages = s.pages from hp] at hpl
    rw [show (applyOp s BTOp.scanStep).L = s.L from hLe]
    exact h pid l hpl
  | scanEnd =>
    obtain ⟨hLe, _, hp, _, _, _, _⟩ := endScanOp_frame s
    refine ⟨?_, hLe⟩
    intro pid l hpl
    rw [show (applyOp s BTOp.scanEnd).pages = s.pages from hp] at hpl
    rw [show (applyOp s BTOp.scanEnd).L = s.L from hLe]
    exact h pid l hpl

/-- Running any valid operation sequence preserves leaf well-formedness. -/
theorem runOps_leaves : ∀ (ops : List BTOp) (s : BTState),
    LeavesWF s → 2 ≤ s.L → (∀ op ∈ ops, opOk op) →
    LeavesWF (runOps s ops) ∧ (runOps s ops).L = s.L := by
  intro ops
  induction ops with
  | nil => intro s h _ _; exact ⟨h, rfl⟩
  | cons op ops ih =>
    intro s h hL hops
    simp only [runOps, List.foldl_cons]
    obtain ⟨h1, h2⟩ := applyOp_leaves s op h hL (hops op (by simp))
    obtain ⟨h3, h4⟩ := ih (applyOp s op) h1 (by rw [h2]; exact hL)
      (fun o ho => hops o (by simp [ho]))
    exact ⟨fun pid l hpl => h3 pid l hpl, h4.trans h2⟩

/-- The constructor's bulk load preserves leaf well-formedness. -/
theorem insertFold_leaves : ∀ (rel : List (Int × RecordId)) (s : BTState),
    LeavesWF s → 2 ≤ s.L → (∀ e ∈ rel, e.2.page_number ≠ 0) →
    LeavesWF (rel.foldl (fun st e => insertEntryOp st e.1 e.2) s) ∧
    (rel.foldl (fun st e => insertEntryOp st e.1 e.2) s).L = s.L := by
  intro rel
  induction rel with
  | nil => intro s h _ _; exact ⟨h, rfl⟩
  | cons e rel ih =>
    intro s h hL hrel
    simp only [List.foldl_cons]
    obtain ⟨h1, h2⟩ := insertEntryOp_leaves s e.1 e.2 h hL (hrel e (by simp))
    obtain ⟨h3, h4⟩ := ih (insertEntryOp s e.1 e.2) h1 (by rw [h2]; exact hL)
      (fun x hx => hrel x (by simp [hx]))
    exact ⟨fun pid l hpl => h3 pid l hpl, h4.trans h2⟩

/-- A freshly created index has only well-formed leaves. -/
theorem btreeCreate_leaves (L N : Nat) (rn : String) (ofs ty : Int)
    (rel : List (Int × RecordId)) (hL : 2 ≤ L)
    (hrel : ∀ e ∈ rel, e.2.page_number ≠ 0) :
    LeavesWF (btreeCreate L N rn ofs ty rel) ∧
    (btreeCreate L N rn ofs ty rel).L = L := by
  simp only [btreeCreate, allocPage, writePage, unPinPage]
  refine insertFold_leaves rel _ ?_ hL hrel
  intro pid l hpl
  rcases upd_pg_leaf hpl with ⟨_, heq⟩ | ⟨_, h2⟩
  · cases heq
    exact zeroLeaf_wf _
  rcases upd_pg_leaf h2 with ⟨_, hcon⟩ | ⟨_, h3⟩
  · cases hcon
  rcases upd_pg_leaf h3 with ⟨_, hcon⟩ | ⟨_, h4⟩
  · cases hcon
  rcases upd_pg_leaf h4 with ⟨_, hcon⟩ | ⟨_, h5⟩
  · cases hcon
  exact Pg.noConfusion h5

/-- **C5** (amended: the no-holes/sorted invariant holds for the *leaf*
nodes).  In every index state reachable from creation by public operations
whose inserted record ids are non-zero, every leaf page's present entries
form a contiguous prefix (slot occupancy is monotone: no holes), and the keys
of that prefix are sorted ascending.  The original claim additionally
asserted this for internal nodes, which is refuted by
`c5_internal_child_hole_cex`. -/
theorem c5_leaf_prefix_sorted (L N : Nat) (relationName : String)
    (attrByteOffset attrType : Int) (rel : List (Int × RecordId))
    (ops : List BTOp) (hL : 2 ≤ L)
    (hrel : ∀ e ∈ rel, e.2.page_number ≠ 0)
    (hops : ∀ op ∈ ops, opOk op) :
    ∀ pid l,
      (runOps (btreeCreate L N relationName attrByteOffset attrType rel) ops).pages pid
        = Pg.leaf l →
      LeafWF L l := by
  obtain ⟨hc, hcL⟩ := btreeCreate_leaves L N relationName attrByteOffset attrType rel hL hrel
  obtain ⟨h1, h2⟩ := runOps_leaves ops _ hc (by rw [hcL]; exact hL) hops
  intro pid l hpl
  have h3 := h1 pid l hpl
  rwa [h2, hcL] at h3

/-- Witness for `c5_leaf_prefix_sorted` at a concrete instance: one insert
into a fresh (4,3) index; page 2 is the root leaf. -/
theorem c5_leaf_prefix_sorted_witness :
    (2 ≤ 4 ∧
      (∀ e ∈ ([((10 : Int), (⟨3, 1⟩ : RecordId))] : List (Int × RecordId)),
        e.2.page_number ≠ 0) ∧
      (∀ op ∈ ([] : List BTOp), opOk op)) ∧
    LeafWF 4
      (((runOps (btreeCreate 4 3 "r" 0 0 [((10 : Int), (⟨3, 1⟩ : RecordId))]) []).pages 2).asLeaf) := by
  refine ⟨⟨by omega, ?_, ?_⟩, ?_⟩
  · intro e he
    simp only [List.mem_singleton] at he
    subst he
    decide
  · intro op hop
    simp at hop
  · exact c5_leaf_prefix_sorted 4 3 "r" 0 0
      [((10 : Int), (⟨3, 1⟩ : RecordId))] []
      (by omega)
      (by intro e he; simp only [List.mem_singleton] at he; subst he; decide)
      (by intro op hop; simp at hop)
      2 _ (by rfl)

/-- **C5 counterexample** (internal nodes): after thirteen ascending inserts
into a fresh index with occupancies (4,3) — an instance of the spec's small
test harness — page 4 is an internal node whose child slot 1 holds page id 0
while child slot 2 holds a non-zero page id: a hole among the child pointers,
contradicting the claim that every child slot left of a present pointer is
present.  (The hole is slot `moveUpIndex` cleared by `splitNonLeafNode`.) -/
theorem c5_internal_child_hole_cex :
    ((btreeCreate 4 3 "r" 0 0
      [((10 : Int), (⟨3, 1⟩ : RecordId)), (20, ⟨3, 2⟩), (30, ⟨3, 3⟩), (40, ⟨3, 4⟩),
       (50, ⟨3, 5⟩), (60, ⟨3, 6⟩), (70, ⟨3, 7⟩), (80, ⟨3, 8⟩), (90, ⟨3, 9⟩),
       (100, ⟨3, 10⟩), (110, ⟨3, 11⟩), (120, ⟨3, 12⟩), (130, ⟨3, 13⟩)]).pages 4).isInternPage
      = true ∧
    ((btreeCreate 4 3 "r" 0 0
      [((10 : Int), (⟨3, 1⟩ : RecordId)), (20, ⟨3, 2⟩), (30, ⟨3, 3⟩), (40, ⟨3, 4⟩),
       (50, ⟨3, 5⟩), (60, ⟨3, 6⟩), (70, ⟨3, 7⟩), (80, ⟨3, 8⟩), (90, ⟨3, 9⟩),
       (100, ⟨3, 10⟩), (110, ⟨3, 11⟩), (120, ⟨3, 12⟩), (130, ⟨3, 13⟩)]).pages 4).asIntern.pageNoArray 1
      = 0 ∧
    ((btreeCreate 4 3 "r" 0 0
      [((10 : Int), (⟨3, 1⟩ : RecordId)), (20, ⟨3, 2⟩), (30, ⟨3, 3⟩), (40, ⟨3, 4⟩),
       (50, ⟨3, 5⟩), (60, ⟨3, 6⟩), (70, ⟨3, 7⟩), (80, ⟨3, 8⟩), (90, ⟨3, 9⟩),
       (100, ⟨3, 10⟩), (110, ⟨3, 11⟩), (120, ⟨3, 12⟩), (130, ⟨3, 13⟩)]).pages 4).asIntern.pageNoArray 2
      ≠ 0 := by
  decide

/-!
## Claim C10: `scanNext` failing `IndexScanCompleted` leaves the scan active
-/

/-- `endScan` on any state with an active scan: succeeds, clears the flag and
decrements the current page's pin count. -/
theorem endScan_after (t : BTState) (ht : t.scanExecuting = true) :
    (endScanOp t).2 = none ∧
    (endScanOp t).1.pins t.currentPageNum = t.pins t.currentPageNum - 1 ∧
    (endScanOp t).1.scanExecuting = false := by
  simp only [endScanOp]
  rw [if_pos ht]
  refine ⟨rfl, ?_, rfl⟩
  simp [unPinPage, pinDec]

/-- **C10.** When a scan is active and `scanNext` fails
`IndexScanCompleted`, `scanExecuting` is still `true` afterwards, so an
immediately following `endScan` does not fail `ScanNotInitialized`: it
succeeds, clears the flag, and decrements the pin count of the page the
cursor points at — even in the branch where `scanNext` itself had already
unpinned that page before failing. -/
theorem c10_scan_completed_leaves_active (s : BTState)
    (h : s.scanExecuting = true)
    (herr : (scanNextOp s).2 = Except.error Err.indexScanCompleted) :
    (scanNextOp s).1.scanExecuting = true ∧
    (endScanOp (scanNextOp s).1).2 = none ∧
    (endScanOp (scanNextOp s).1).1.pins ((scanNextOp s).1.currentPageNum)
      = (scanNextOp s).1.pins ((scanNextOp s).1.currentPageNum) - 1 ∧
    (endScanOp (scanNextOp s).1).1.scanExecuting = false := by
  simp only [scanNextOp] at herr ⊢
  rw [if_pos h] at herr ⊢
  by_cases hex : s.nextEntry = s.L ∨
      (((s.pages s.currentPageNum).asLeaf).ridArray s.nextEntry).page_number = 0
  · rw [if_pos hex] at herr ⊢
    by_cases hsib : ((s.pages s.currentPageNum).asLeaf).rightSibPageNo = 0
    · rw [if_pos hsib] at herr ⊢
      exact ⟨h, (endScan_after _ (by exact h)).1, (endScan_after _ (by exact h)).2.1,
        (endScan_after _ (by exact h)).2.2⟩
    · rw [if_neg hsib] at herr ⊢
      simp only [scanNextEmit] at herr ⊢
      split at herr
      · exact Except.noConfusion herr
      · rename_i hck
        rw [if_neg hck]
        exact ⟨h, (endScan_after _ (by exact h)).1, (endScan_after _ (by exact h)).2.1,
        (endScan_after _ (by exact h)).2.2⟩
  · rw [if_neg hex] at herr ⊢
    simp only [scanNextEmit] at herr ⊢
    split at herr
    · exact Except.noConfusion herr
    · rename_i hck
      rw [if_neg hck]
      exact ⟨h, (endScan_after _ (by exact h)).1, (endScan_after _ (by exact h)).2.1,
        (endScan_after _ (by exact h)).2.2⟩

/-- A concrete state with an active scan positioned at an empty leaf with no
right sibling, so the next `scanNext` fails `IndexScanCompleted`. -/
def c10State : BTState :=
  { L := 4, N := 3, pages := fun _ => Pg.free, nextPid := 3,
    pins := fun q => if q = 2 then 1 else 0, headerPageNum := 1,
    rootPageNum := 2, initialRootPageNum := 2, scanExecuting := true,
    nextEntry := 0, currentPageNum := 2, lowValInt := 0, highValInt := 10,
    lowOp := Operator.GT, highOp := Operator.LT }

/-- Witness for `c10_scan_completed_leaves_active` at the concrete state
`c10State`. -/
theorem c10_scan_completed_leaves_active_witness :
    (c10State.scanExecuting = true ∧
     (scanNextOp c10State).2 = Except.error Err.indexScanCompleted) ∧
    ((scanNextOp c10State).1.scanExecuting = true ∧
     (endScanOp (scanNextOp c10State).1).2 = none ∧
     (endScanOp (scanNextOp c10State).1).1.pins ((scanNextOp c10State).1.currentPageNum)
       = (scanNextOp c10State).1.pins ((scanNextOp c10State).1.currentPageNum) - 1 ∧
     (endScanOp (scanNextOp c10State).1).1.scanExecuting = false) :=
  ⟨⟨rfl, rfl⟩, c10_scan_completed_leaves_active c10State rfl rfl⟩

/-!
## Claim C4: meta page / root synchronisation and root-split structure
-/

/-- Pointwise update preserves a value property when the new value has it. -/
theorem upd_pres {α : Type} (P : α → Prop) (f : Nat → α) (i : Nat) (v : α)
    (hf : ∀ j, P (f j)) (hv : P v) : ∀ j, P (upd f i v j) := by
  intro j
  by_cases hj : j = i
  · rw [hj, upd_same]; exact hv
  · rw [upd_ne _ _ _ _ hj]; exact hf j

/-- Analyzing one page write against an internal-node read. -/
theorem upd_pg_intern {f : Nat → Pg} {pid q : Nat} {p : Pg} {n : NonLeafNodeInt}
    (h : upd f pid p q = Pg.intern n) :
    (q = pid ∧ p = Pg.intern n) ∨ (q ≠ pid ∧ f q = Pg.intern n) := by
  by_cases hq : q = pid
  · refine Or.inl ⟨hq, ?_⟩
    rw [← h, hq, upd_same]
  · refine Or.inr ⟨hq, ?_⟩
    rw [← h, upd_ne f pid q p hq]

/-- `nonLeafShiftInsert` only stores child pointers that were already in the
node or are the inserted entry's pointer. -/
theorem nonLeafShiftInsert_pno_pres (P : Nat → Prop) (entry : PageKeyPair) :
    ∀ (i : Nat) (n : NonLeafNodeInt), (∀ j, P (n.pageNoArray j)) → P entry.pageNo →
    ∀ j, P ((nonLeafShiftInsert entry n i).pageNoArray j) := by
  intro i
  induction i with
  | zero =>
    intro n hn he j
    exact upd_pres P n.pageNoArray 1 entry.pageNo hn he j
  | succ i ih =>
    intro n hn he j
    simp only [nonLeafShiftInsert]
    split
    · exact ih _ (upd_pres P n.pageNoArray (i + 2) (n.pageNoArray (i + 1)) hn (hn _)) he j
    · exact upd_pres P n.pageNoArray (i + 2) entry.pageNo hn he j

/-- `insertNonLeafNode` only stores child pointers that were already in the
node or are the inserted entry's pointer. -/
theorem insertNonLeafNode_pno_pres (P : Nat → Prop) (N : Nat) (entry : PageKeyPair)
    (n : NonLeafNodeInt) (hn : ∀ j, P (n.pageNoArray j)) (he : P entry.pageNo) :
    ∀ j, P ((insertNonLeafNode N n entry).pageNoArray j) := by
  intro j
  simp only [insertNonLeafNode]
  split
  · exact nonLeafShiftInsert_pno_pres P entry 0 n hn he j
  · exact nonLeafShiftInsert_pno_pres P entry _ n hn he j

/-- The internal move loop only stores pointers from the two nodes or `0`. -/
theorem nonLeafMoveLoop_pno_pres (P : Nat → Prop) (mid N : Nat) (hz : P 0) :
    ∀ (k : Nat) (old new : NonLeafNodeInt),
    (∀ j, P (old.pageNoArray j)) → (∀ j, P (new.pageNoArray j)) →
    (∀ j, P ((nonLeafMoveLoop mid N old new k).1.pageNoArray j)) ∧
    (∀ j, P ((nonLeafMoveLoop mid N old new k).2.pageNoArray j)) := by
  intro k
  induction k with
  | zero => intro old new h1 h2; exact ⟨h1, h2⟩
  | succ k ih =>
    intro old new h1 h2
    simp only [nonLeafMoveLoop]
    exact ih _ _ (upd_pres P old.pageNoArray (N - (k + 1) + 1) 0 h1 hz)
      (upd_pres P new.pageNoArray (N - (k + 1) - mid) (old.pageNoArray (N - (k + 1) + 1)) h2 (h1 _))

/-- Both halves of an internal split only hold pointers from the old node,
the inserted entry's pointer, or `0`. -/
theorem splitNonLeafNode_pno_pres (P : Nat → Prop) (N : Nat)
    (oldNode : NonLeafNodeInt) (newPid : Nat) (entry : PageKeyPair) (hz : P 0)
    (hold : ∀ j, P (oldNode.pageNoArray j)) (he : P entry.pageNo) :
    (∀ j, P ((splitNonLeafNode N oldNode newPid entry).1.pageNoArray j)) ∧
    (∀ j, P ((splitNonLeafNode N oldNode newPid entry).2.1.pageNoArray j)) := by
  simp only [splitNonLeafNode]
  set muI := if N % 2 = 0 then
      (if entry.key < oldNode.keyArray (N / 2) then N / 2 - 1 else N / 2)
    else N / 2 with hmu
  obtain ⟨m1, m2⟩ := nonLeafMoveLoop_pno_pres P (muI + 1) N hz (N - (muI + 1))
    oldNode zeroNonLeaf hold (fun j => hz)
  have ho1 : ∀ j,
      P ((upd (nonLeafMoveLoop (muI + 1) N oldNode zeroNonLeaf (N - (muI + 1))).1.pageNoArray
        muI 0) j) :=
    upd_pres P _ muI 0 m1 hz
  constructor
  · intro j
    split
    · exact insertNonLeafNode_pno_pres P N entry _ ho1 he j
    · exact ho1 j
  · intro j
    split
    · exact m2 j
    · exact insertNonLeafNode_pno_pres P N entry _ (by exact m2) he j

/-- The promoted entry of an internal split carries the new page's id. -/
theorem splitNonLeafNode_pno (N : Nat) (x : NonLeafNodeInt) (np : Nat)
    (e : PageKeyPair) : (splitNonLeafNode N x np e).2.2.pageNo = np := rfl

/-- The promoted entry of a leaf split carries the new page's id. -/
theorem splitLeafNode_pno (L : Nat) (x : LeafNodeInt) (np : Nat)
    (e : RIDKeyPair) : (splitLeafNode L x np e).2.2.pageNo = np := rfl

/-- The navigator returns one of the node's stored child pointers. -/
theorem findNextNonLeafNode_mem (N : Nat) (node : NonLeafNodeInt) (key : Int) :
    ∃ i, findNextNonLeafNode N node key = node.pageNoArray i := by
  simp only [findNextNonLeafNode]
  split
  · exact ⟨0, rfl⟩
  · exact ⟨_, rfl⟩

/-- A property of all stored child pointers transfers through the
`asIntern` cast (a non-internal page casts to the zero node). -/
theorem asIntern_pno_pres (P : Nat → Prop) (g : Nat → Pg)
    (h : ∀ pid n, g pid = Pg.intern n → ∀ j, P (n.pageNoArray j)) (hz : P 0)
    (p : Nat) : ∀ j, P (((g p).asIntern).pageNoArray j) := by
  intro j
  cases hp : g p with
  | intern n => exact h p n hp j
  | free => exact hz
  | leaf l => exact hz
  | meta m => exact hz

/-- The C4 state invariant: the header page id is a genuine allocated page id
distinct from the root, its meta content names the current root, and no
internal node stores the header page as a child pointer. -/
def MetaInv (s : BTState) : Prop :=
  s.headerPageNum ≠ 0 ∧
  s.headerPageNum < s.nextPid ∧
  s.rootPageNum ≠ s.headerPageNum ∧
  ((s.pages s.headerPageNum).asMeta).rootPageNo = s.rootPageNum ∧
  (∀ pid n, s.pages pid = Pg.intern n → ∀ j, n.pageNoArray j ≠ s.headerPageNum)

/-- `updateRootNode` restores the invariant and reports the new root's
structure. -/
theorem updateRootNodeSt_metaInv (s : BTState) (fp : Nat) (e : PageKeyPair)
    (hinv : MetaInv s) (hfp : fp ≠ s.headerPageNum)
    (he : e.pageNo ≠ s.headerPageNum) :
    MetaInv (updateRootNodeSt s fp e) ∧
    (updateRootNodeSt s fp e).headerPageNum = s.headerPageNum ∧
    (updateRootNodeSt s fp e).nextPid = s.nextPid + 1 := by
  obtain ⟨h0, h1, h2, h3, h4⟩ := hinv
  refine ⟨⟨h0, ?_, ?_, ?_, ?_⟩, rfl, rfl⟩
  · show s.headerPageNum < s.nextPid + 1
    omega
  · show s.nextPid ≠ s.headerPageNum
    omega
  · show ((updateRootNodeSt s fp e).pages s.headerPageNum).asMeta.rootPageNo = s.nextPid
    simp only [updateRootNodeSt, allocPage, writePage, unPinPage]
    rw [upd_same]
    rfl
  · intro pid n hpn j
    show n.pageNoArray j ≠ s.headerPageNum
    simp only [updateRootNodeSt, allocPage, writePage, unPinPage] at hpn
    rcases upd_pg_intern hpn with ⟨_, hcon⟩ | ⟨_, g2⟩
    · cases hcon
    rcases upd_pg_intern g2 with ⟨_, heq⟩ | ⟨_, g3⟩
    · cases heq
      exact upd_pres (fun v => v ≠ s.headerPageNum) _ 1 e.pageNo
        (upd_pres (fun v => v ≠ s.headerPageNum) zeroNonLeaf.pageNoArray 0 fp
          (fun j2 hc => h0 hc.symm) hfp) he j
    rcases upd_pg_intern g3 with ⟨_, hcon⟩ | ⟨_, g4⟩
    · cases hcon
    exact h4 pid n g4 j

/-- Writing the two halves of a leaf split (plus the allocation) keeps the
invariant: only leaf pages are written, away from the header. -/
theorem leafWrite_metaInv (s : BTState) (p1 : Nat) (A B : LeafNodeInt)
    (pins2 : Nat → Int) (hinv : MetaInv s) (hp1 : p1 ≠ s.headerPageNum) :
    MetaInv ({ s with nextPid := s.nextPid + 1, pins := pins2,
                      pages := (upd (upd (upd s.pages s.nextPid Pg.free) p1 (Pg.leaf A))
                        s.nextPid (Pg.leaf B)) }) := by
  obtain ⟨h0, h1, h2, h3, h4⟩ := hinv
  have hh1 : s.headerPageNum ≠ s.nextPid := by omega
  have hh2 : s.headerPageNum ≠ p1 := fun hc => hp1 hc.symm
  refine ⟨h0, ?_, h2, ?_, ?_⟩
  · show s.headerPageNum < s.nextPid + 1
    omega
  · show ((upd (upd (upd s.pages s.nextPid Pg.free) p1 (Pg.leaf A))
        s.nextPid (Pg.leaf B)) s.headerPageNum).asMeta.rootPageNo = s.rootPageNum
    rw [upd_ne _ _ _ _ hh1, upd_ne _ _ _ _ hh2, upd_ne _ _ _ _ hh1]
    exact h3
  · intro pid n hpn j
    show n.pageNoArray j ≠ s.headerPageNum
    rcases upd_pg_intern hpn with ⟨_, hcon⟩ | ⟨_, g2⟩
    · cases hcon
    rcases upd_pg_intern g2 with ⟨_, hcon⟩ | ⟨_, g3⟩
    · cases hcon
    rcases upd_pg_intern g3 with ⟨_, hcon⟩ | ⟨_, g4⟩
    · cases hcon
    exact h4 pid n g4 j

/-- Writing the two halves of an internal split keeps the invariant when
both halves' stored pointers avoid the header page. -/
theorem splitWrite_metaInv (s : BTState) (p1 : Nat) (A B : NonLeafNodeInt)
    (pins2 : Nat → Int) (hinv : MetaInv s) (hp1 : p1 ≠ s.headerPageNum)
    (hA : ∀ j, A.pageNoArray j ≠ s.headerPageNum)
    (hB : ∀ j, B.pageNoArray j ≠ s.headerPageNum) :
    MetaInv ({ s with nextPid := s.nextPid + 1, pins := pins2,
                      pages := (upd (upd (upd s.pages s.nextPid Pg.free) p1 (Pg.intern A))
                        s.nextPid (Pg.intern B)) }) := by
  obtain ⟨h0, h1, h2, h3, h4⟩ := hinv
  have hh1 : s.headerPageNum ≠ s.nextPid := by omega
  have hh2 : s.headerPageNum ≠ p1 := fun hc => hp1 hc.symm
  refine ⟨h0, ?_, h2, ?_, ?_⟩
  · show s.headerPageNum < s.nextPid + 1
    omega
  · show ((upd (upd (upd s.pages s.nextPid Pg.free) p1 (Pg.intern A))
        s.nextPid (Pg.intern B)) s.headerPageNum).asMeta.rootPageNo = s.rootPageNum
    rw [upd_ne _ _ _ _ hh1, upd_ne _ _ _ _ hh2, upd_ne _ _ _ _ hh1]
    exact h3
  · intro pid n hpn j
    show n.pageNoArray j ≠ s.headerPageNum
    rcases upd_pg_intern hpn with ⟨_, heq⟩ | ⟨_, g2⟩
    · cases heq
      exact hB j
    rcases upd_pg_intern g2 with ⟨_, heq⟩ | ⟨_, g3⟩
    · cases heq
      exact hA j
    rcases upd_pg_intern g3 with ⟨_, hcon⟩ | ⟨_, g4⟩
    · cases hcon
    exact h4 pid n g4 j

/-- The state-level leaf split keeps the invariant. -/
theorem splitLeafNodeSt_metaInv (s : BTState) (leafPid : Nat) (entry : RIDKeyPair)
    (hinv : MetaInv s) (hlp : leafPid ≠ s.headerPageNum) :
    MetaInv (splitLeafNodeSt s leafPid entry).1 ∧
    (splitLeafNodeSt s leafPid entry).1.headerPageNum = s.headerPageNum ∧
    s.nextPid < (splitLeafNodeSt s leafPid entry).1.nextPid ∧
    (splitLeafNodeSt s leafPid entry).2.pageNo = s.nextPid := by
  have h1 := hinv.2.1
  have hw := leafWrite_metaInv s leafPid
    (splitLeafNode s.L ((upd s.pages s.nextPid Pg.free leafPid).asLeaf) s.nextPid entry).1
    (splitLeafNode s.L ((upd s.pages s.nextPid Pg.free leafPid).asLeaf) s.nextPid entry).2.1
    (pinDec (pinDec (pinInc s.pins s.nextPid) leafPid) s.nextPid) hinv hlp
  have hpno : (splitLeafNodeSt s leafPid entry).2.pageNo = s.nextPid := by
    simp only [splitLeafNodeSt, allocPage, writePage, unPinPage]
    split
    · exact splitLeafNode_pno _ _ _ _
    · exact splitLeafNode_pno _ _ _ _
  refine ⟨?_, ?_, ?_, hpno⟩ <;>
    simp only [splitLeafNodeSt, allocPage, writePage, unPinPage] <;>
    split
  · obtain ⟨u1, u2, u3⟩ := updateRootNodeSt_metaInv _ leafPid _ hw (by exact hlp)
      (show (splitLeafNode s.L ((upd s.pages s.nextPid Pg.free leafPid).asLeaf)
          s.nextPid entry).2.2.pageNo ≠ s.headerPageNum by
        rw [splitLeafNode_pno]; omega)
    exact u1
  · exact hw
  · obtain ⟨u1, u2, u3⟩ := updateRootNodeSt_metaInv _ leafPid _ hw (by exact hlp)
      (show (splitLeafNode s.L ((upd s.pages s.nextPid Pg.free leafPid).asLeaf)
          s.nextPid entry).2.2.pageNo ≠ s.headerPageNum by
        rw [splitLeafNode_pno]; omega)
    exact u2.trans rfl
  · rfl
  · obtain ⟨u1, u2, u3⟩ := updateRootNodeSt_metaInv _ leafPid _ hw (by exact hlp)
      (show (splitLeafNode s.L ((upd s.pages s.nextPid Pg.free leafPid).asLeaf)
          s.nextPid entry).2.2.pageNo ≠ s.headerPageNum by
        rw [splitLeafNode_pno]; omega)
    rw [u3]
    show s.nextPid < s.nextPid + 1 + 1
    omega
  · show s.nextPid < s.nextPid + 1
    omega

/-- The state-level internal split keeps the invariant. -/
theorem splitNonLeafNodeSt_metaInv (s : BTState) (oldPid : Nat) (entry : PageKeyPair)
    (hinv : MetaInv s) (hop : oldPid ≠ s.headerPageNum)
    (hent : entry.pageNo ≠ s.headerPageNum) :
    MetaInv (splitNonLeafNodeSt s oldPid entry).1 ∧
    (splitNonLeafNodeSt s oldPid entry).1.headerPageNum = s.headerPageNum ∧
    s.nextPid < (splitNonLeafNodeSt s oldPid entry).1.nextPid ∧
    (splitNonLeafNodeSt s oldPid entry).2.pageNo = s.nextPid := by
  have h0 := hinv.1
  have h1 := hinv.2.1
  have hold : ∀ j,
      (((upd s.pages s.nextPid Pg.free oldPid).asIntern).pageNoArray j) ≠ s.headerPageNum := by
    refine asIntern_pno_pres (fun v => v ≠ s.headerPageNum) _ ?_ (fun hc => h0 hc.symm) oldPid
    intro pid n hpn j
    rcases upd_pg_intern hpn with ⟨_, hcon⟩ | ⟨_, hg⟩
    · cases hcon
    · exact hinv.2.2.2.2 pid n hg j
  obtain ⟨hs1, hs2⟩ := splitNonLeafNode_pno_pres (fun v => v ≠ s.headerPageNum) s.N
    ((upd s.pages s.nextPid Pg.free oldPid).asIntern) s.nextPid entry
    (fun hc => h0 hc.symm) hold hent
  have hw := splitWrite_metaInv s oldPid _ _
    (pinDec (pinDec (pinInc s.pins s.nextPid) oldPid) s.nextPid) hinv hop hs1 hs2
  have hpno : (splitNonLeafNodeSt s oldPid entry).2.pageNo = s.nextPid := by
    simp only [splitNonLeafNodeSt, allocPage, writePage, unPinPage]
    split
    · exact splitNonLeafNode_pno _ _ _ _
    · exact splitNonLeafNode_pno _ _ _ _
  refine ⟨?_, ?_, ?_, hpno⟩ <;>
    simp only [splitNonLeafNodeSt, allocPage, writePage, unPinPage] <;>
    split
  · obtain ⟨u1, u2, u3⟩ := updateRootNodeSt_metaInv _ oldPid _ hw (by exact hop)
      (show (splitNonLeafNode s.N ((upd s.pages s.nextPid Pg.free oldPid).asIntern)
          s.nextPid entry).2.2.pageNo ≠ s.headerPageNum by
        rw [splitNonLeafNode_pno]; omega)
    exact u1
  · exact hw
  · obtain ⟨u1, u2, u3⟩ := updateRootNodeSt_metaInv _ oldPid _ hw (by exact hop)
      (show (splitNonLeafNode s.N ((upd s.pages s.nextPid Pg.free oldPid).asIntern)
          s.nextPid entry).2.2.pageNo ≠ s.headerPageNum by
        rw [splitNonLeafNode_pno]; omega)
    exact u2.trans rfl
  · rfl
  · obtain ⟨u1, u2, u3⟩ := updateRootNodeSt_metaInv _ oldPid _ hw (by exact hop)
      (show (splitNonLeafNode s.N ((upd s.pages s.nextPid Pg.free oldPid).asIntern)
          s.nextPid entry).2.2.pageNo ≠ s.headerPageNum by
        rw [splitNonLeafNode_pno]; omega)
    rw [u3]
    show s.nextPid < s.nextPid + 1 + 1
    omega
  · show s.nextPid < s.nextPid + 1
    omega

/-- The recursive insert keeps the invariant, never moves the header page id,
never shrinks the page allocator, and promotes only freshly allocated pages. -/
theorem insertRec_metaInv : ∀ (fuel : Nat) (s : BTState) (curPid : Nat)
    (isL : Bool) (de : RIDKeyPair),
    MetaInv s → curPid ≠ s.headerPageNum →
    MetaInv (insertRec fuel s curPid isL de).1 ∧
    (insertRec fuel s curPid isL de).1.headerPageNum = s.headerPageNum ∧
    s.nextPid ≤ (insertRec fuel s curPid isL de).1.nextPid ∧
    (∀ pk, (insertRec fuel s curPid isL de).2 = some pk →
      pk.pageNo ≠ s.headerPageNum) := by
  intro fuel
  induction fuel with
  | zero =>
    intro s curPid isL de hinv hcur
    exact ⟨hinv, rfl, Nat.le_refl _, fun pk h => Option.noConfusion h⟩
  | succ fuel ih =>
    intro s curPid isL de hinv hcur
    have h0 := hinv.1
    have h1 := hinv.2.1
    simp only [insertRec]
    by_cases hleaf : isL = true
    · rw [if_pos hleaf]
      by_cases hnf : (((s.pages curPid).asLeaf).ridArray (s.L - 1)).page_number = 0
      · rw [if_pos hnf]
        refine ⟨?_, rfl, Nat.le_refl _, fun pk h => Option.noConfusion h⟩
        obtain ⟨g0, g1, g2, g3, g4⟩ := hinv
        have hh2 : s.headerPageNum ≠ curPid := fun hc => hcur hc.symm
        refine ⟨g0, g1, g2, ?_, ?_⟩
        · show ((upd s.pages curPid
              (Pg.leaf (insertLeafNode s.L ((s.pages curPid).asLeaf) de)))
              s.headerPageNum).asMeta.rootPageNo = s.rootPageNum
          rw [upd_ne _ _ _ _ hh2]
          exact g3
        · intro pid n hpn j
          show n.pageNoArray j ≠ s.headerPageNum
          rcases upd_pg_intern hpn with ⟨_, hcon⟩ | ⟨_, g5⟩
          · cases hcon
          exact g4 pid n g5 j
      · rw [if_neg hnf]
        obtain ⟨u1, u2, u3, u4⟩ := splitLeafNodeSt_metaInv s curPid de hinv hcur
        refine ⟨u1, u2, Nat.le_of_lt u3, ?_⟩
        intro pk h
        cases h
        rw [u4]
        omega
    · rw [if_neg hleaf]
      set nid := findNextNonLeafNode s.N ((s.pages curPid).asIntern) de.key with hnid
      set s1 := { s with pins := pinInc s.pins nid } with hs1
      have hs1inv : MetaInv s1 := hinv
      have hnidh : nid ≠ s1.headerPageNum := by
        obtain ⟨i, hi⟩ := findNextNonLeafNode_mem s.N ((s.pages curPid).asIntern) de.key
        rw [hnid, hi]
        exact asIntern_pno_pres (fun v => v ≠ s.headerPageNum) s.pages
          hinv.2.2.2.2 (fun hc => h0 hc.symm) curPid i
      obtain ⟨hrec, hrecH, hrecN, hrecP⟩ := ih s1 nid
        (decide (((s.pages curPid).asIntern).level = 1)) de hs1inv hnidh
      set s2 := (insertRec fuel s1 nid
          (decide (((s.pages curPid).asIntern).level = 1)) de).1 with hs2
      have hcur2 : curPid ≠ s2.headerPageNum := by
        rw [hrecH]
        exact hcur
      split
      · exact ⟨hrec, hrecH, hrecN, fun pk h => Option.noConfusion h⟩
      · rename_i newEntry hres
        have hpk : newEntry.pageNo ≠ s2.headerPageNum := by
          rw [hrecH]
          exact hrecP newEntry hres
        split
        · refine ⟨?_, hrecH, hrecN, fun pk h => Option.noConfusion h⟩
          obtain ⟨g0, g1, g2, g3, g4⟩ := hrec
          have hh2 : s2.headerPageNum ≠ curPid := fun hc => hcur2 hc.symm
          refine ⟨g0, g1, g2, ?_, ?_⟩
          · show ((upd s2.pages curPid
                (Pg.intern (insertNonLeafNode s2.N ((s2.pages curPid).asIntern) newEntry)))
                s2.headerPageNum).asMeta.rootPageNo = s2.rootPageNum
            rw [upd_ne _ _ _ _ hh2]
            exact g3
          · intro pid n hpn j
            show n.pageNoArray j ≠ s2.headerPageNum
            rcases upd_pg_intern hpn with ⟨_, heq⟩ | ⟨_, g5⟩
            · cases heq
              exact insertNonLeafNode_pno_pres (fun v => v ≠ s2.headerPageNum) s2.N newEntry _
                (asIntern_pno_pres (fun v => v ≠ s2.headerPageNum) s2.pages g4
                  (fun hc => g0 hc.symm) curPid) hpk j
            exact g4 pid n g5 j
        · obtain ⟨u1, u2, u3, u4⟩ := splitNonLeafNodeSt_metaInv s2 curPid newEntry hrec hcur2 hpk
          refine ⟨u1, u2.trans hrecH, Nat.le_trans hrecN (Nat.le_of_lt u3), ?_⟩
          intro pk h
          cases h
          rw [u4, ← hrecH]
          have := hrec.2.1
          omega

/-- The scan operations keep the invariant (they touch neither pages nor the
tree-shape members). -/
theorem metaInv_of_frame (s t : BTState) (hf : ScanFrameEq s t)
    (h : MetaInv s) : MetaInv t := by
  obtain ⟨hL, hN, hp, hnp, hh, hr, hi⟩ := hf
  obtain ⟨h0, h1, h2, h3, h4⟩ := h
  refine ⟨by rw [hh]; exact h0, by rw [hh, hnp]; exact h1, by rw [hr, hh]; exact h2, ?_, ?_⟩
  · show ((t.pages t.headerPageNum).asMeta).rootPageNo = t.rootPageNum
    rw [hp, hh, hr]
    exact h3
  · intro pid n hpn j
    rw [hh]
    refine h4 pid n ?_ j
    rw [← hp]
    exact hpn

/-- `insertEntry` keeps the invariant. -/
theorem insertEntryOp_metaInv (s : BTState) (k : Int) (r : RecordId)
    (hinv : MetaInv s) : MetaInv (insertEntryOp s k r) := by
  simp only [insertEntryOp]
  exact (insertRec_metaInv s.nextPid ({ s with pins := pinInc s.pins s.rootPageNum })
    s.rootPageNum (decide (s.initialRootPageNum = s.rootPageNum)) ⟨r, k⟩
    hinv hinv.2.2.1).1

/-- Every public operation keeps the invariant. -/
theorem applyOp_metaInv (s : BTState) (op : BTOp) (hinv : MetaInv s) :
    MetaInv (applyOp s op) := by
  cases op with
  | insert k r => exact insertEntryOp_metaInv s k r hinv
  | scanStart lo lo2 hi hi2 =>
    exact metaInv_of_frame s _ (startScanOp_frame s lo lo2 hi hi2) hinv
  | scanStep => exact metaInv_of_frame s _ (scanNextOp_frame s) hinv
  | scanEnd => exact metaInv_of_frame s _ (endScanOp_frame s) hinv

/-- Running any operation sequence keeps the invariant. -/
theorem runOps_metaInv : ∀ (ops : List BTOp) (s : BTState),
    MetaInv s → MetaInv (runOps s ops) := by
  intro ops
  induction ops with
  | nil => intro s h; exact h
  | cons op ops ih =>
    intro s h
    simp only [runOps, List.foldl_cons]
    exact ih (applyOp s op) (applyOp_metaInv s op h)

/-- The constructor's bulk load keeps the invariant. -/
theorem insertFold_metaInv : ∀ (rel : List (Int × RecordId)) (s : BTState),
    MetaInv s →
    MetaInv (rel.foldl (fun st e => insertEntryOp st e.1 e.2) s) := by
  intro rel
  induction rel with
  | nil => intro s h; exact h
  | cons e rel ih =>
    intro s h
    simp only [List.foldl_cons]
    exact ih (insertEntryOp s e.1 e.2) (insertEntryOp_metaInv s e.1 e.2 h)

/-- A freshly created index satisfies the invariant. -/
theorem btreeCreate_metaInv (L N : Nat) (rn : String) (ofs ty : Int)
    (rel : List (Int × RecordId)) :
    MetaInv (btreeCreate L N rn ofs ty rel) := by
  simp only [btreeCreate, allocPage, writePage, unPinPage]
  refine insertFold_metaInv rel _ ⟨?_, ?_, ?_, ?_, ?_⟩
  · show (1 : Nat) ≠ 0
    omega
  · show (1 : Nat) < 3
    omega
  · show (2 : Nat) ≠ 1
    omega
  · rfl
  · intro pid n hpn j
    rcases upd_pg_intern hpn with ⟨_, hcon⟩ | ⟨_, g2⟩
    · cases hcon
    rcases upd_pg_intern g2 with ⟨_, hcon⟩ | ⟨_, g3⟩
    · cases hcon
    rcases upd_pg_intern g3 with ⟨_, hcon⟩ | ⟨_, g4⟩
    · cases hcon
    rcases upd_pg_intern g4 with ⟨_, hcon⟩ | ⟨_, g5⟩
    · cases hcon
    exact Pg.noConfusion g5

/-- **C4.** In every state reachable from index creation by public
operations, the meta page's `rootPageNo` equals the in-memory root page
number; and `updateRootNode` (on any state whose header is not the page about
to be allocated) makes the freshly allocated page the root, with
`pageNoArray[0]` the first-page argument (the old root at both call sites),
`pageNoArray[1]` the promoted entry's page id, `keyArray[0]` the promoted
key, and the meta page re-synchronised. -/
theorem c4_meta_root_sync (L N : Nat) (rn : String) (ofs ty : Int)
    (rel : List (Int × RecordId)) (ops : List BTOp) :
    (((runOps (btreeCreate L N rn ofs ty rel) ops).pages
        (runOps (btreeCreate L N rn ofs ty rel) ops).headerPageNum).asMeta).rootPageNo
      = (runOps (btreeCreate L N rn ofs ty rel) ops).rootPageNum ∧
    (∀ (s : BTState) (fp : Nat) (e : PageKeyPair),
      s.headerPageNum ≠ s.nextPid →
      (updateRootNodeSt s fp e).rootPageNum = s.nextPid ∧
      ((updateRootNodeSt s fp e).pages s.nextPid).asIntern.pageNoArray 0 = fp ∧
      ((updateRootNodeSt s fp e).pages s.nextPid).asIntern.pageNoArray 1 = e.pageNo ∧
      ((updateRootNodeSt s fp e).pages s.nextPid).asIntern.keyArray 0 = e.key ∧
      ((updateRootNodeSt s fp e).pages
          (updateRootNodeSt s fp e).headerPageNum).asMeta.rootPageNo
        = (updateRootNodeSt s fp e).rootPageNum) := by
  constructor
  · exact (runOps_metaInv ops _ (btreeCreate_metaInv L N rn ofs ty rel)).2.2.2.1
  · intro s fp e hne
    have hnp : s.nextPid ≠ s.headerPageNum := fun hc => hne hc.symm
    simp only [updateRootNodeSt, allocPage, writePage, unPinPage]
    refine ⟨trivial, ?_, ?_, ?_, ?_⟩
    · rw [upd_ne _ _ _ _ hnp, upd_same]
      show (upd (upd zeroNonLeaf.pageNoArray 0 fp) 1 e.pageNo) 0 = fp
      rw [upd_ne _ _ _ _ (by omega : (0 : Nat) ≠ 1), upd_same]
    · rw [upd_ne _ _ _ _ hnp, upd_same]
      show (upd (upd zeroNonLeaf.pageNoArray 0 fp) 1 e.pageNo) 1 = e.pageNo
      rw [upd_same]
    · rw [upd_ne _ _ _ _ hnp, upd_same]
      show (upd zeroNonLeaf.keyArray 0 e.key) 0 = e.key
      rw [upd_same]
    · rw [upd_same]
      rfl

/-- Witness for `c4_meta_root_sync`: a concrete created index, and a concrete
root replacement on it. -/
theorem c4_meta_root_sync_witness :
    ((btreeCreate 4 3 "r" 0 0
        [((10 : Int), (⟨3, 1⟩ : RecordId))]).headerPageNum ≠
      (btreeCreate 4 3 "r" 0 0 [((10 : Int), (⟨3, 1⟩ : RecordId))]).nextPid) ∧
    ((((runOps (btreeCreate 4 3 "r" 0 0 [((10 : Int), (⟨3, 1⟩ : RecordId))]) []).pages
        (runOps (btreeCreate 4 3 "r" 0 0 [((10 : Int), (⟨3, 1⟩ : RecordId))]) []).headerPageNum).asMeta).rootPageNo
      = (runOps (btreeCreate 4 3 "r" 0 0 [((10 : Int), (⟨3, 1⟩ : RecordId))]) []).rootPageNum ∧
    ((updateRootNodeSt (btreeCreate 4 3 "r" 0 0 [((10 : Int), (⟨3, 1⟩ : RecordId))]) 2
        ⟨5, 42⟩).rootPageNum
      = (btreeCreate 4 3 "r" 0 0 [((10 : Int), (⟨3, 1⟩ : RecordId))]).nextPid ∧
     ((updateRootNodeSt (btreeCreate 4 3 "r" 0 0 [((10 : Int), (⟨3, 1⟩ : RecordId))]) 2
         ⟨5, 42⟩).pages
        (btreeCreate 4 3 "r" 0 0 [((10 : Int), (⟨3, 1⟩ : RecordId))]).nextPid).asIntern.pageNoArray 0 = 2 ∧
     ((updateRootNodeSt (btreeCreate 4 3 "r" 0 0 [((10 : Int), (⟨3, 1⟩ : RecordId))]) 2
         ⟨5, 42⟩).pages
        (btreeCreate 4 3 "r" 0 0 [((10 : Int), (⟨3, 1⟩ : RecordId))]).nextPid).asIntern.pageNoArray 1 = 5 ∧
     ((updateRootNodeSt (btreeCreate 4 3 "r" 0 0 [((10 : Int), (⟨3, 1⟩ : RecordId))]) 2
         ⟨5, 42⟩).pages
        (btreeCreate 4 3 "r" 0 0 [((10 : Int), (⟨3, 1⟩ : RecordId))]).nextPid).asIntern.keyArray 0 = 42 ∧
     ((updateRootNodeSt (btreeCreate 4 3 "r" 0 0 [((10 : Int), (⟨3, 1⟩ : RecordId))]) 2
         ⟨5, 42⟩).pages
        (updateRootNodeSt (btreeCreate 4 3 "r" 0 0 [((10 : Int), (⟨3, 1⟩ : RecordId))]) 2
          ⟨5, 42⟩).headerPageNum).asMeta.rootPageNo
       = (updateRootNodeSt (btreeCreate 4 3 "r" 0 0 [((10 : Int), (⟨3, 1⟩ : RecordId))]) 2
          ⟨5, 42⟩).rootPageNum)) := by
  refine ⟨by decide, (c4_meta_root_sync 4 3 "r" 0 0 [((10 : Int), (⟨3, 1⟩ : RecordId))] []).1, ?_⟩
  exact (c4_meta_root_sync 4 3 "r" 0 0 [((10 : Int), (⟨3, 1⟩ : RecordId))] []).2
    (btreeCreate 4 3 "r" 0 0 [((10 : Int), (⟨3, 1⟩ : RecordId))]) 2 ⟨5, 42⟩ (by decide)

/-!
## Claim C7: pins on error exits
-/

/-- Unpinning a page that was just pinned restores the pin map. -/
theorem pinDec_pinInc (p : Nat → Int) (pid : Nat) : pinDec (pinInc p pid) pid = p := by
  funext q
  simp only [pinDec, pinInc]
  by_cases hq : q = pid
  · rw [if_pos hq, if_pos hq]
    omega
  · rw [if_neg hq, if_neg hq]

/-- Pin accounting of `startScan`'s inner leaf loop: with one pin held on the
current page above a base map, a throwing exit restores the base map, while a
successful exit or a sibling hop still holds exactly one pin on the (possibly
new) current page. -/
theorem startScanInner_pins (s : BTState) (base : Nat → Int) (curNode : LeafNodeInt)
    (L : Nat) (hp : s.pins = pinInc base s.currentPageNum) :
    ∀ rem,
    (∀ t e, startScanInner s curNode L rem = InnerRes.done t (some e) → t.pins = base) ∧
    (∀ t, startScanInner s curNode L rem = InnerRes.done t none →
      t.pins = pinInc base t.currentPageNum) ∧
    (∀ t, startScanInner s curNode L rem = InnerRes.hop t →
      t.pins = pinInc base t.currentPageNum) := by
  intro rem
  induction rem with
  | zero =>
    refine ⟨?_, ?_, ?_⟩
    · intro t e h
      simp only [startScanInner] at h
      exact InnerRes.noConfusion h
    · intro t h
      simp only [startScanInner] at h
      exact InnerRes.noConfusion h
    · intro t h
      simp only [startScanInner] at h
      injection h with h
      subst h
      exact hp
  | succ rem ih =>
    refine ⟨?_, ?_, ?_⟩
    · intro t e h
      simp only [startScanInner] at h
      split at h
      · cases h
      split at h
      · cases h
        show pinDec s.pins s.currentPageNum = base
        rw [hp, pinDec_pinInc]
      split at h
      · cases h
        show pinDec s.pins s.currentPageNum = base
        rw [hp, pinDec_pinInc]
      split at h
      · split at h
        · cases h
          show pinDec s.pins s.currentPageNum = base
          rw [hp, pinDec_pinInc]
        · cases h
      · exact ih.1 t e h
    · intro t h
      simp only [startScanInner] at h
      split at h
      · cases h
        exact hp
      split at h
      · cases h
      split at h
      · cases h
      split at h
      · split at h
        · cases h
        · cases h
      · exact ih.2.1 t h
    · intro t h
      simp only [startScanInner] at h
      split at h
      · cases h
      split at h
      · cases h
      split at h
      · cases h
      split at h
      · split at h
        · cases h
        · cases h
          show pinInc (pinDec s.pins s.currentPageNum) curNode.rightSibPageNo
            = pinInc base curNode.rightSibPageNo
          rw [hp, pinDec_pinInc]
      · exact ih.2.2 t h

/-- Pin accounting of the internal-level descent: the single held pin moves
with the cursor. -/
theorem descendLoop_pins : ∀ (fuel : Nat) (s : BTState) (base : Nat → Int),
    s.pins = pinInc base s.currentPageNum →
    (descendLoop fuel s).pins = pinInc base (descendLoop fuel s).currentPageNum := by
  intro fuel
  induction fuel with
  | zero => intro s base hp; exact hp
  | succ fuel ih =>
    intro s base hp
    simp only [descendLoop]
    split
    · show pinInc (pinDec s.pins s.currentPageNum) _ = pinInc base _
      rw [hp, pinDec_pinInc]
    · refine ih _ base ?_
      show pinInc (pinDec s.pins s.currentPageNum) _ = pinInc base _
      rw [hp, pinDec_pinInc]

/-- Pin accounting of `startScan`'s leaf-chain walk: a throwing exit restores
the base map; a successful exit holds exactly the cursor pin. -/
theorem startScanOuter_pins : ∀ (fuel : Nat) (s : BTState) (base : Nat → Int),
    s.pins = pinInc base s.currentPageNum →
    (∀ e, (startScanOuter fuel s).2 = some e → (startScanOuter fuel s).1.pins = base) ∧
    ((startScanOuter fuel s).2 = none →
      (startScanOuter fuel s).1.pins
        = pinInc base (startScanOuter fuel s).1.currentPageNum) := by
  intro fuel
  induction fuel with
  | zero =>
    intro s base hp
    exact ⟨fun e h => Option.noConfusion h, fun h => hp⟩
  | succ fuel ih =>
    intro s base hp
    simp only [startScanOuter]
    split
    · refine ⟨fun e h => ?_, fun h => Option.noConfusion h⟩
      show pinDec s.pins s.currentPageNum = base
      rw [hp, pinDec_pinInc]
    · split
      · rename_i t e2 heq
        rcases e2 with _ | e3
        · exact ⟨fun e h => Option.noConfusion h,
            fun h => (startScanInner_pins s base _ s.L hp s.L).2.1 t heq⟩
        · refine ⟨fun e h => ?_, fun h => Option.noConfusion h⟩
          exact (startScanInner_pins s base _ s.L hp s.L).1 t e3 heq
      · rename_i t heq
        exact ih t base ((startScanInner_pins s base _ s.L hp s.L).2.2 t heq)

/-- **C7** (amended: the claim holds for the scan operations when no scan is
active on entry, but not for the constructor's open path, see
`c7_open_error_pin_leak_cex`).  With no active scan: every error exit of
`startScan` leaves the pin map exactly as it was — every page the call
pinned has been unpinned again — and `endScan` and `scanNext` fail
`ScanNotInitialized` without touching the state at all. -/
theorem c7_error_pin_release (s : BTState) (lo hi : Int) (lo2 hi2 : Operator)
    (hscan : s.scanExecuting = false) :
    (∀ e, (startScanOp s lo lo2 hi hi2).2 = some e →
      (startScanOp s lo lo2 hi hi2).1.pins = s.pins) ∧
    (endScanOp s).1 = s ∧ (endScanOp s).2 = some Err.scanNotInit ∧
    (scanNextOp s).1 = s ∧ (scanNextOp s).2 = Except.error Err.scanNotInit := by
  refine ⟨?_, ?_, ?_, ?_, ?_⟩
  · simp only [startScanOp, hscan, Bool.false_eq_true, if_false]
    split
    · exact fun e h => rfl
    · split
      · exact fun e h => rfl
      · intro e herr
        have hp2 : ∀ (u : BTState), u.pins = pinInc s.pins u.currentPageNum →
            (∀ e2, (startScanOuter u.nextPid u).2 = some e2 →
              (startScanOuter u.nextPid u).1.pins = s.pins) :=
          fun u hu => (startScanOuter_pins u.nextPid u s.pins hu).1
        revert herr
        split
        · intro herr
          refine hp2 _ ?_ e herr
          refine descendLoop_pins _ _ s.pins ?_
          rfl
        · intro herr
          exact hp2 _ rfl e herr
  · simp only [endScanOp, hscan, Bool.false_eq_true, if_false]
  · simp only [endScanOp, hscan, Bool.false_eq_true, if_false]
  · simp only [scanNextOp, hscan, Bool.false_eq_true, if_false]
  · simp only [scanNextOp, hscan, Bool.false_eq_true, if_false]

/-- Witness for `c7_error_pin_release` on a freshly created index and an
empty scan range (`startScan` throws `BadScanrange`). -/
theorem c7_error_pin_release_witness :
    ((btreeCreate 4 3 "r" 0 0 []).scanExecuting = false ∧
     (startScanOp (btreeCreate 4 3 "r" 0 0 []) 10 Operator.GT 0 Operator.LT).2
       = some Err.badScanrange) ∧
    ((startScanOp (btreeCreate 4 3 "r" 0 0 []) 10 Operator.GT 0 Operator.LT).1.pins
       = (btreeCreate 4 3 "r" 0 0 []).pins ∧
     (endScanOp (btreeCreate 4 3 "r" 0 0 [])).1 = btreeCreate 4 3 "r" 0 0 [] ∧
     (scanNextOp (btreeCreate 4 3 "r" 0 0 [])).1 = btreeCreate 4 3 "r" 0 0 []) := by
  refine ⟨⟨rfl, rfl⟩, ?_, ?_, ?_⟩
  · exact (c7_error_pin_release (btreeCreate 4 3 "r" 0 0 []) 10 0 Operator.GT Operator.LT
      rfl).1 Err.badScanrange rfl
  · exact (c7_error_pin_release (btreeCreate 4 3 "r" 0 0 []) 10 0 Operator.GT Operator.LT
      rfl).2.1
  · exact (c7_error_pin_release (btreeCreate 4 3 "r" 0 0 []) 10 0 Operator.GT Operator.LT
      rfl).2.2.2.1

/-- **C7 counterexample**: the constructor's open-an-existing-index path
throws `BadIndexInfo` (here: wrong relation name) *before* unpinning the
header page it pinned during the call — `unPinPage` at btree.cpp line 73
comes after the throw at line 70 — so the failed call leaves one pin on the
header page, where there were none before. -/
theorem c7_open_error_pin_leak_cex :
    (btreeOpenExisting (btreeCreate 4 3 "r" 0 0 []) "x" 0 0).2
      = some Err.badIndexInfo ∧
    (btreeCreate 4 3 "r" 0 0 []).headerPageNum = 1 ∧
    (btreeCreate 4 3 "r" 0 0 []).pins 1 = 0 ∧
    (btreeOpenExisting (btreeCreate 4 3 "r" 0 0 []) "x" 0 0).1.pins 1 = 1 := by
  decide

/-!
## Claims C1 and C3: the `noVal` comparison bug in `startScan`

`startScan` declares `bool noVal = false;` and later executes `noVal ==
true;` — a comparison, not an assignment — so `noVal` never becomes true,
the `if (noVal) break;` is dead, and the slot loop treats *absent* slots
(zero-filled keys) as candidate entries.  The two theorems below exhibit the
resulting divergences on concrete trees.
-/

/-- A (4,3)-index from the spec's small test harness: leaf page 2 holds keys
[-4,-3], its right sibling page 3 holds [-2,-1,10], page 4 is the root. -/
def c1Tree : BTState :=
  btreeCreate 4 3 "r" 0 0
    [((-4 : Int), (⟨3, 1⟩ : RecordId)), (-3, ⟨3, 2⟩), (-2, ⟨3, 3⟩),
     (-1, ⟨3, 4⟩), (10, ⟨3, 5⟩)]

/-- **C1** (code bug): on `c1Tree`, the range `(-2, 100]` contains the two
present entries `(-1, (3,4))` and `(10, (3,5))` (both satisfy `checkKey`),
yet after a *successful* `startScan` the very first `scanNext` fails
`IndexScanCompleted`: the scan returns none of the qualifying RIDs.
`startScan` matched the absent slot 2 of leaf page 2 (its zero-filled key 0
satisfies the bounds thanks to the dead `noVal` check), and `scanNext` then
finds that slot absent and the leaf's sibling pointer zero. -/
theorem c1_scan_misses_qualifying_rids_bug :
    (startScanOp c1Tree (-2) Operator.GT 100 Operator.LTE).2 = none ∧
    (startScanOp c1Tree (-2) Operator.GT 100 Operator.LTE).1.currentPageNum = 2 ∧
    (startScanOp c1Tree (-2) Operator.GT 100 Operator.LTE).1.nextEntry = 2 ∧
    (((c1Tree.pages 2).asLeaf).ridArray 2).page_number = 0 ∧
    (scanNextOp (startScanOp c1Tree (-2) Operator.GT 100 Operator.LTE).1).2
      = Except.error Err.indexScanCompleted ∧
    ((c1Tree.pages 3).asLeaf.keyArray 1 = -1 ∧
     (c1Tree.pages 3).asLeaf.ridArray 1 = ⟨3, 4⟩ ∧
     checkKey (-2) Operator.GT 100 Operator.LTE (-1) = true) ∧
    ((c1Tree.pages 3).asLeaf.keyArray 2 = 10 ∧
     (c1Tree.pages 3).asLeaf.ridArray 2 = ⟨3, 5⟩ ∧
     checkKey (-2) Operator.GT 100 Operator.LTE 10 = true) := by
  decide

/-- An index at the real occupancies (682, 1023) holding the single entry
`(-5, (7,1))` in its root leaf (page 2). -/
def c3Tree : BTState :=
  btreeCreate 682 1023 "rel" 0 0 [((-5 : Int), (⟨7, 1⟩ : RecordId))]

set_option maxRecDepth 4000 in
/-- **C3** (code bug): on `c3Tree`, no present entry has a key in `[0, 10]`
(the only present entry has key `-5`), so the claim requires `startScan` to
fail `NoSuchKeyFound`; instead it *succeeds*, setting `next_entry = 1` — an
absent slot — because the dead `noVal` check lets the zero-filled key `0` of
slot 1 pass `checkKey`. -/
theorem c3_startscan_false_success_bug :
    (startScanOp c3Tree 0 Operator.GTE 10 Operator.LTE).2 = none ∧
    (startScanOp c3Tree 0 Operator.GTE 10 Operator.LTE).1.scanExecuting = true ∧
    (startScanOp c3Tree 0 Operator.GTE 10 Operator.LTE).1.currentPageNum = 2 ∧
    (startScanOp c3Tree 0 Operator.GTE 10 Operator.LTE).1.nextEntry = 1 ∧
    c3Tree.rootPageNum = 2 ∧
    (((c3Tree.pages 2).asLeaf).ridArray 1).page_number = 0 ∧
    (∀ i, i < 682 → (((c3Tree.pages 2).asLeaf).ridArray i).page_number ≠ 0 →
      checkKey 0 Operator.GTE 10 Operator.LTE (((c3Tree.pages 2).asLeaf).keyArray i)
        = false) := by
  decide

end BTree
